import Mathlib

/-!
Verification of the bachata messaging toolkit (WebSocket chat server on
Redis).  The development shallowly embeds the Python sources:

* proto.py   — the wire codec (json.loads / json.dumps on message dicts),
               the transport type constants and make_message;
* base.py    — the messages center: transport layer and the routing chain;
* redis.py   — the best-effort queue and the reliable queue over a Redis
               list state.

JSON numbers are embedded as integers (the wire format of the protocol
uses integer transport codes and millisecond timestamps; float frames are
outside the embedded fragment).  Strings are carried verbatim; the dumper
escapes the quote and the backslash, the parser additionally understands
the standard named escapes.
-/

namespace Bachata

/-- The opening curly bracket character. -/
def braceO : Char := Char.ofNat 123

/-- The closing curly bracket character. -/
def braceC : Char := Char.ofNat 125

/-- The double-quote character. -/
def quoteC : Char := '"'

/-- The backslash character. -/
def bslash : Char := '\\'

/-- JSON values as produced by json.loads: null, booleans, integers,
strings, arrays and objects.  Object fields are kept in textual order. -/
inductive JValue : Type where
  | null : JValue
  | bool (b : Bool) : JValue
  | num (n : Int) : JValue
  | str (s : String) : JValue
  | arr (elems : List JValue) : JValue
  | obj (fields : List (String × JValue)) : JValue

/-- Escaping of a single character as json.dumps performs it on the
embedded fragment: quote and backslash get a backslash prefix, everything
else passes through. -/
def escChar (c : Char) : List Char :=
  if c = quoteC then [bslash, quoteC]
  else if c = bslash then [bslash, bslash]
  else [c]

/-- Escape a whole string body. -/
def escStr : List Char → List Char
  | [] => []
  | c :: cs => escChar c ++ escStr cs

/-- Decimal digit character for a value below ten. -/
def digitChar : Nat → Char
  | 0 => '0' | 1 => '1' | 2 => '2' | 3 => '3' | 4 => '4'
  | 5 => '5' | 6 => '6' | 7 => '7' | 8 => '8' | 9 => '9'
  | _ + 10 => '0'

/-- Decimal digits with explicit fuel (any fuel at least the number
itself is enough). -/
def natDigitsF : Nat → Nat → List Char
  | 0, n => [digitChar n]
  | fuel + 1, n =>
    if n < 10 then [digitChar n]
    else natDigitsF fuel (n / 10) ++ [digitChar (n % 10)]

/-- Decimal digits of a natural number, most significant first. -/
def natDigits (n : Nat) : List Char := natDigitsF n n

theorem natDigitsF_irrel : ∀ f1 f2 n, n ≤ f1 → n ≤ f2 →
    natDigitsF f1 n = natDigitsF f2 n := by
  intro f1
  induction f1 with
  | zero =>
    intro f2 n h1 _
    have hn : n = 0 := by omega
    subst hn
    cases f2 with
    | zero => rfl
    | succ k => simp [natDigitsF]
  | succ f ih =>
    intro f2 n h1 h2
    by_cases hn : n < 10
    · cases f2 with
      | zero =>
        have : n = 0 := by omega
        subst this
        simp [natDigitsF]
      | succ k => simp [natDigitsF, hn]
    · cases f2 with
      | zero => omega
      | succ k =>
        simp only [natDigitsF, if_neg hn]
        have hd : n / 10 < n := Nat.div_lt_self (by omega) (by omega)
        rw [ih k (n / 10) (by omega) (by omega)]

theorem natDigits_unfold (n : Nat) :
    natDigits n = if n < 10 then [digitChar n]
      else natDigits (n / 10) ++ [digitChar (n % 10)] := by
  by_cases hn : n < 10
  · rw [if_pos hn]
    cases n with
    | zero => rfl
    | succ m => simp [natDigits, natDigitsF, hn]
  · rw [if_neg hn]
    cases n with
    | zero => omega
    | succ m =>
      show natDigitsF (m + 1) (m + 1) = _
      rw [natDigitsF, if_neg hn]
      have hd : (m + 1) / 10 < m + 1 := Nat.div_lt_self (by omega) (by omega)
      rw [natDigitsF_irrel m ((m + 1) / 10) ((m + 1) / 10) (by omega) (by omega)]
      rfl

/-- Decimal rendering of an integer, as json.dumps prints it. -/
def intRender (n : Int) : List Char :=
  if n < 0 then '-' :: natDigits (-n).toNat else natDigits n.toNat

mutual

/-- Serialisation of a JSON value, following json.dumps with its default
separators (a comma-space between items, a colon-space after keys). -/
def renderV : JValue → List Char
  | .num n => intRender n
  | .str s => quoteC :: escStr s.data ++ [quoteC]
  | .null => ['n', 'u', 'l', 'l']
  | .bool false => ['f', 'a', 'l', 's', 'e']
  | .bool true => ['t', 'r', 'u', 'e']
  | .arr [] => ['[', ']']
  | .arr (x :: xs) => '[' :: renderV x ++ renderElems xs ++ [']']
  | .obj [] => [braceO, braceC]
  | .obj (f :: fs) => braceO :: renderMember f ++ renderMembers fs ++ [braceC]

/-- Serialisation of one object member. -/
def renderMember : String × JValue → List Char
  | (k, v) => quoteC :: escStr k.data ++ [quoteC, ':', ' '] ++ renderV v

/-- Serialisation of the tail elements of an array. -/
def renderElems : List JValue → List Char
  | [] => []
  | x :: xs => [',', ' '] ++ renderV x ++ renderElems xs

/-- Serialisation of the tail members of an object. -/
def renderMembers : List (String × JValue) → List Char
  | [] => []
  | f :: fs => [',', ' '] ++ renderMember f ++ renderMembers fs

end

/-- Whitespace in the JSON grammar. -/
def isWs (c : Char) : Bool :=
  c = ' ' || c = '\t' || c = '\n' || c = '\r'

/-- Drop leading whitespace. -/
def skipWs : List Char → List Char
  | [] => []
  | c :: cs => if isWs c then skipWs cs else c :: cs

/-- Decimal digit test (by code point, 48 to 57). -/
def isDigitC (c : Char) : Bool :=
  48 ≤ c.toNat && c.toNat ≤ 57

/-- Value of a digit character. -/
def digitVal (c : Char) : Nat := c.toNat - 48

/-- Accumulating decimal reader. -/
def digitsToNat (acc : Nat) : List Char → Nat
  | [] => acc
  | c :: cs => digitsToNat (acc * 10 + digitVal c) cs

/-- Digit-run reader with a sign already consumed. -/
def parseNumCore (neg : Bool) (l : List Char) : Option (Int × List Char) :=
  if l.takeWhile isDigitC = [] then none
  else some
    (if neg then -(digitsToNat 0 (l.takeWhile isDigitC) : Int)
     else (digitsToNat 0 (l.takeWhile isDigitC) : Int),
     l.dropWhile isDigitC)

/-- Integer token reader: an optional minus sign followed by digits. -/
def parseNum : List Char → Option (Int × List Char)
  | [] => none
  | c :: cs => if c = '-' then parseNumCore true cs else parseNumCore false (c :: cs)

/-- Standard named escapes understood by the string reader. -/
def unescChar (c : Char) : Option Char :=
  if c = quoteC then some quoteC
  else if c = bslash then some bslash
  else if c = '/' then some '/'
  else if c = 'n' then some '\n'
  else if c = 't' then some '\t'
  else if c = 'r' then some '\r'
  else if c = 'b' then some (Char.ofNat 8)
  else if c = 'f' then some (Char.ofNat 12)
  else none

/-- Read a string body up to the closing quote, resolving escapes. -/
def parseStrBody : List Char → Option (List Char × List Char)
  | [] => none
  | [c] => if c = quoteC then some ([], []) else none
  | c :: e :: cs2 =>
    if c = quoteC then some ([], e :: cs2)
    else if c = bslash then
      match unescChar e with
      | none => none
      | some u =>
        match parseStrBody cs2 with
        | none => none
        | some (body, rest) => some (u :: body, rest)
    else
      match parseStrBody (e :: cs2) with
      | none => none
      | some (body, rest) => some (c :: body, rest)

/-- Reader for a nonempty comma-separated element list, up to and
including the closing square bracket.  The value reader is a parameter;
the fuel bounds the number of elements. -/
def parseElems (pv : List Char → Option (JValue × List Char)) :
    Nat → List Char → Option (List JValue × List Char)
  | 0, _ => none
  | fuel + 1, l =>
    match pv l with
    | none => none
    | some (v, r) =>
      match skipWs r with
      | c :: r2 =>
        if c = ',' then
          match parseElems pv fuel r2 with
          | some (vs, rest) => some (v :: vs, rest)
          | none => none
        else if c = ']' then some ([v], r2)
        else none
      | [] => none

/-- Reader for a nonempty object member list, up to and including the
closing curly bracket. -/
def parseMembers (pv : List Char → Option (JValue × List Char)) :
    Nat → List Char → Option (List (String × JValue) × List Char)
  | 0, _ => none
  | fuel + 1, l =>
    match skipWs l with
    | [] => none
    | c :: cs =>
      if c = quoteC then
        match parseStrBody cs with
        | none => none
        | some (key, r1) =>
          match skipWs r1 with
          | c1 :: r2 =>
            if c1 = ':' then
              match pv r2 with
              | none => none
              | some (v, r3) =>
                match skipWs r3 with
                | c2 :: r4 =>
                  if c2 = ',' then
                    match parseMembers pv fuel r4 with
                    | some (fs, rest) => some ((String.mk key, v) :: fs, rest)
                    | none => none
                  else if c2 = braceC then some ([(String.mk key, v)], r4)
                  else none
                | [] => none
            else none
          | [] => none
      else none

/-- Fuel-indexed JSON value reader. -/
def parseVal : Nat → List Char → Option (JValue × List Char)
  | 0, _ => none
  | fuel + 1, l =>
    match skipWs l with
    | [] => none
    | c :: cs =>
      if c = quoteC then
        match parseStrBody cs with
        | some (body, rest) => some (.str (String.mk body), rest)
        | none => none
      else if c = braceO then
        match skipWs cs with
        | c1 :: rest1 =>
          if c1 = braceC then some (.obj [], rest1)
          else
            match parseMembers (fun l2 => parseVal fuel l2) fuel (c1 :: rest1) with
            | some (fs, rest) => some (.obj fs, rest)
            | none => none
        | [] => none
      else if c = '[' then
        match skipWs cs with
        | c1 :: rest1 =>
          if c1 = ']' then some (.arr [], rest1)
          else
            match parseElems (fun l2 => parseVal fuel l2) fuel (c1 :: rest1) with
            | some (xs, rest) => some (.arr xs, rest)
            | none => none
        | [] =>
          match parseElems (fun l2 => parseVal fuel l2) fuel [] with
          | some (xs, rest) => some (.arr xs, rest)
          | none => none
      else if c = 't' then
        match cs with
        | 'r' :: 'u' :: 'e' :: rest => some (.bool true, rest)
        | _ => none
      else if c = 'f' then
        match cs with
        | 'a' :: 'l' :: 's' :: 'e' :: rest => some (.bool false, rest)
        | _ => none
      else if c = 'n' then
        match cs with
        | 'u' :: 'l' :: 'l' :: rest => some (.null, rest)
        | _ => none
      else if c = '-' || isDigitC c then
        match parseNum (c :: cs) with
        | some (n, rest) => some (.num n, rest)
        | none => none
      else none

/-- proto.BaseProtocol.load_message: json.loads on the frame; a parse
failure is a ValueError, embedded as none.  Trailing whitespace is
accepted, other trailing content is refused. -/
def load_message (s : String) : Option JValue :=
  match parseVal (s.data.length + 1) s.data with
  | some (v, rest) => if skipWs rest = [] then some v else none
  | none => none

/-- proto.BaseProtocol.dump_message: json.dumps on the message. -/
def dump_message (v : JValue) : String := String.mk (renderV v)

/-! ### Round-trip infrastructure: digits -/

theorem digitChar_isDigit {d : Nat} (h : d < 10) :
    isDigitC (digitChar d) = true := by
  interval_cases d <;> rfl

theorem digitVal_digitChar {d : Nat} (h : d < 10) :
    digitVal (digitChar d) = d := by
  interval_cases d <;> rfl

theorem natDigits_digits (n : Nat) : ∀ c ∈ natDigits n, isDigitC c = true := by
  induction n using Nat.strong_induction_on with
  | _ n ih =>
    intro c hc
    rw [natDigits_unfold] at hc
    by_cases h : n < 10
    · simp only [if_pos h, List.mem_singleton] at hc
      exact hc ▸ digitChar_isDigit h
    · simp only [if_neg h, List.mem_append, List.mem_singleton] at hc
      rcases hc with hc | hc
      · exact ih (n / 10) (Nat.div_lt_self (by omega) (by omega)) c hc
      · exact hc ▸ digitChar_isDigit (Nat.mod_lt n (by omega))

theorem natDigits_ne_nil (n : Nat) : natDigits n ≠ [] := by
  rw [natDigits_unfold]
  by_cases h : n < 10 <;> simp [h]

theorem digitsToNat_append (acc : Nat) (l1 l2 : List Char) :
    digitsToNat acc (l1 ++ l2) = digitsToNat (digitsToNat acc l1) l2 := by
  induction l1 generalizing acc with
  | nil => rfl
  | cons c cs ih =>
    rw [List.cons_append]
    have h1 : digitsToNat acc (c :: (cs ++ l2))
        = digitsToNat (acc * 10 + digitVal c) (cs ++ l2) := rfl
    have h2 : digitsToNat acc (c :: cs) = digitsToNat (acc * 10 + digitVal c) cs := rfl
    rw [h1, h2, ih]

theorem digitsToNat_natDigits (n : Nat) :
    ∀ acc, digitsToNat acc (natDigits n) = acc * 10 ^ (natDigits n).length + n := by
  induction n using Nat.strong_induction_on with
  | _ n ih =>
    intro acc
    rw [natDigits_unfold]
    by_cases h : n < 10
    · rw [if_pos h]
      have h1 : digitsToNat acc [digitChar n] = acc * 10 + digitVal (digitChar n) := rfl
      rw [h1, digitVal_digitChar h]
      simp [pow_one]
    · rw [if_neg h, digitsToNat_append]
      have h10 : n / 10 < n := Nat.div_lt_self (by omega) (by omega)
      rw [ih (n / 10) h10]
      have h1 : ∀ a : Nat, digitsToNat a [digitChar (n % 10)]
          = a * 10 + digitVal (digitChar (n % 10)) := fun a => rfl
      rw [h1, digitVal_digitChar (Nat.mod_lt n (by omega))]
      simp only [List.length_append, List.length_singleton]
      have hmod := Nat.div_add_mod n 10
      ring_nf
      omega

theorem digitsToNat_natDigits_zero (n : Nat) : digitsToNat 0 (natDigits n) = n := by
  simpa using digitsToNat_natDigits n 0

/-- Lists whose head is not a decimal digit (empty allowed): the shape of
the remainder a number token may legally border on. -/
def noDigitHead (l : List Char) : Prop :=
  ∀ c, l.head? = some c → isDigitC c = false

theorem takeWhile_append_of_all {p : Char → Bool} {l1 : List Char} (l2 : List Char)
    (h : ∀ c ∈ l1, p c = true) :
    (l1 ++ l2).takeWhile p = l1 ++ l2.takeWhile p := by
  induction l1 with
  | nil => rfl
  | cons c cs ih =>
    have hc := h c (by simp)
    simp [List.takeWhile_cons, hc, ih (fun c hc2 => h c (by simp [hc2]))]

theorem dropWhile_append_of_all {p : Char → Bool} {l1 : List Char} (l2 : List Char)
    (h : ∀ c ∈ l1, p c = true) :
    (l1 ++ l2).dropWhile p = l2.dropWhile p := by
  induction l1 with
  | nil => rfl
  | cons c cs ih =>
    simp only [List.cons_append, List.dropWhile_cons, h c (by simp)]
    exact ih (fun c hc => h c (by simp [hc]))

theorem takeWhile_eq_nil_of_head {p : Char → Bool} {l : List Char}
    (h : ∀ c, l.head? = some c → p c = false) : l.takeWhile p = [] := by
  cases l with
  | nil => rfl
  | cons c cs => simp [List.takeWhile_cons, h c rfl]

theorem dropWhile_eq_self_of_head {p : Char → Bool} {l : List Char}
    (h : ∀ c, l.head? = some c → p c = false) : l.dropWhile p = l := by
  cases l with
  | nil => rfl
  | cons c cs => simp [List.dropWhile_cons, h c rfl]

theorem parseNumCore_natDigits (neg : Bool) (n : Nat) (rest : List Char)
    (hr : noDigitHead rest) :
    parseNumCore neg (natDigits n ++ rest)
      = some (if neg then -(n : Int) else (n : Int), rest) := by
  have hne := natDigits_ne_nil n
  have hdig := natDigits_digits n
  have htw : (natDigits n ++ rest).takeWhile isDigitC
      = natDigits n ++ rest.takeWhile isDigitC := takeWhile_append_of_all rest hdig
  have hdw : (natDigits n ++ rest).dropWhile isDigitC
      = rest.dropWhile isDigitC := dropWhile_append_of_all rest hdig
  have hrt : rest.takeWhile isDigitC = [] := takeWhile_eq_nil_of_head hr
  have hrd : rest.dropWhile isDigitC = rest := dropWhile_eq_self_of_head hr
  unfold parseNumCore
  simp only [htw, hdw, hrt, hrd, List.append_nil]
  rw [if_neg hne, digitsToNat_natDigits_zero]

theorem natDigits_head_ne_minus (n : Nat) :
    ∀ c cs, natDigits n = c :: cs → c ≠ '-' := by
  intro c cs hc heq
  have hcd : isDigitC c = true := natDigits_digits n c (by simp [hc])
  rw [heq] at hcd
  exact absurd hcd (by decide)

theorem parseNum_intRender (n : Int) (rest : List Char) (hr : noDigitHead rest) :
    parseNum (intRender n ++ rest) = some (n, rest) := by
  rw [intRender]
  by_cases h : n < 0
  · rw [if_pos h]
    have hp : parseNum (('-' :: natDigits (-n).toNat) ++ rest)
        = parseNumCore true (natDigits (-n).toNat ++ rest) := by
      rw [List.cons_append]
      simp [parseNum]
    rw [hp, parseNumCore_natDigits true _ _ hr]
    have h2 : -(((-n).toNat : Nat) : Int) = n := by omega
    rw [if_pos rfl, h2]
  · rw [if_neg h]
    obtain ⟨c, cs, hc⟩ : ∃ c cs, natDigits n.toNat = c :: cs := by
      cases hx : natDigits n.toNat with
      | nil => exact absurd hx (natDigits_ne_nil _)
      | cons c cs => exact ⟨c, cs, rfl⟩
    rw [hc]
    simp only [List.cons_append, parseNum,
      if_neg (natDigits_head_ne_minus n.toNat c cs hc)]
    rw [← List.cons_append, ← hc, parseNumCore_natDigits false _ _ hr]
    have h2 : ((n.toNat : Nat) : Int) = n := by omega
    rw [if_neg (by simp), h2]

/-! ### Round-trip infrastructure: strings -/

theorem parseStrBody_cons (c : Char) (cs : List Char) :
    parseStrBody (c :: cs) =
      if c = quoteC then some ([], cs)
      else if c = bslash then
        match cs with
        | [] => none
        | e :: cs2 =>
          match unescChar e with
          | none => none
          | some u =>
            match parseStrBody cs2 with
            | none => none
            | some (body, rest) => some (u :: body, rest)
      else
        match parseStrBody cs with
        | none => none
        | some (body, rest) => some (c :: body, rest) := by
  cases cs with
  | nil =>
    by_cases hq : c = quoteC
    · simp [parseStrBody, hq]
    · by_cases hb : c = bslash
      · simp [parseStrBody, hq, hb]
      · simp [parseStrBody, hq, hb]
  | cons e cs2 =>
    rw [parseStrBody.eq_def]

theorem parseStrBody_escStr (s : List Char) (rest : List Char) :
    parseStrBody (escStr s ++ quoteC :: rest) = some (s, rest) := by
  induction s with
  | nil =>
    show parseStrBody (quoteC :: rest) = some ([], rest)
    rw [parseStrBody_cons, if_pos rfl]
  | cons c cs ih =>
    show parseStrBody ((escChar c ++ escStr cs) ++ quoteC :: rest) = _
    rw [escChar]
    by_cases hq : c = quoteC
    · subst hq
      rw [if_pos rfl]
      rw [show ([bslash, quoteC] ++ escStr cs) ++ quoteC :: rest
          = bslash :: (quoteC :: (escStr cs ++ quoteC :: rest)) by simp]
      rw [parseStrBody_cons]
      rw [if_neg (by decide), if_pos rfl]
      simp only [show unescChar quoteC = some quoteC from rfl, ih]
    · rw [if_neg hq]
      by_cases hb : c = bslash
      · subst hb
        rw [if_pos rfl]
        rw [show ([bslash, bslash] ++ escStr cs) ++ quoteC :: rest
            = bslash :: (bslash :: (escStr cs ++ quoteC :: rest)) by simp]
        rw [parseStrBody_cons]
        rw [if_neg (by decide), if_pos rfl]
        simp only [show unescChar bslash = some bslash from rfl, ih]
      · rw [if_neg hb]
        rw [show ([c] ++ escStr cs) ++ quoteC :: rest
            = c :: (escStr cs ++ quoteC :: rest) by simp]
        rw [parseStrBody_cons]
        rw [if_neg hq, if_neg hb, ih]

/-! ### Round-trip infrastructure: value sizes and head characters -/

mutual

/-- Fuel required to parse a rendered value. -/
def sizeJ : JValue → Nat
  | .null => 1
  | .bool _ => 1
  | .num _ => 1
  | .str _ => 1
  | .arr xs => 1 + sizeArr xs
  | .obj fs => 1 + sizeObj fs

/-- Fuel contribution of array elements. -/
def sizeArr : List JValue → Nat
  | [] => 0
  | x :: xs => 1 + sizeJ x + sizeArr xs

/-- Fuel contribution of object members. -/
def sizeObj : List (String × JValue) → Nat
  | [] => 0
  | f :: fs => 1 + sizeJ f.2 + sizeObj fs

end

/-- Characters a rendered value can start with. -/
def isValueHead (c : Char) : Bool :=
  c = quoteC || c = braceO || c = '[' || c = 't' || c = 'f' || c = 'n' ||
    c = '-' || isDigitC c

theorem renderV_head (v : JValue) :
    ∃ c l, renderV v = c :: l ∧ isValueHead c = true := by
  cases v with
  | null => exact ⟨'n', _, rfl, by decide⟩
  | bool b => cases b with
    | true => exact ⟨'t', _, rfl, by decide⟩
    | false => exact ⟨'f', _, rfl, by decide⟩
  | num n =>
    rw [show renderV (.num n) = intRender n from rfl, intRender]
    by_cases h : n < 0
    · exact ⟨'-', _, by rw [if_pos h], by decide⟩
    · rw [if_neg h]
      obtain ⟨c, cs, hc⟩ : ∃ c cs, natDigits n.toNat = c :: cs := by
        cases hx : natDigits n.toNat with
        | nil => exact absurd hx (natDigits_ne_nil _)
        | cons c cs => exact ⟨c, cs, rfl⟩
      refine ⟨c, cs, hc, ?_⟩
      have := natDigits_digits n.toNat c (by simp [hc])
      simp [isValueHead, this]
  | str s => exact ⟨quoteC, _, rfl, by decide⟩
  | arr xs => cases xs with
    | nil => exact ⟨'[', _, rfl, by decide⟩
    | cons x xs => exact ⟨'[', _, rfl, by decide⟩
  | obj fs => cases fs with
    | nil => exact ⟨braceO, _, rfl, by decide⟩
    | cons f fs => exact ⟨braceO, _, rfl, by decide⟩

/-- Facts needed about a value-head character: it survives whitespace
skipping and is none of the structural delimiters. -/
theorem valueHead_facts {c : Char} (h : isValueHead c = true) :
    isWs c = false ∧ c ≠ ']' ∧ c ≠ braceC ∧ c ≠ ',' ∧ c ≠ ':' := by
  simp only [isValueHead, Bool.or_eq_true, decide_eq_true_eq] at h
  rcases h with ((((((h | h) | h) | h) | h) | h) | h) | h
  all_goals first
    | (subst h; refine ⟨by decide, by decide, by decide, by decide, by decide⟩)
    | skip
  refine ⟨?_, ?_, ?_, ?_, ?_⟩
  · cases hw : isWs c
    · rfl
    · exfalso
      simp only [isWs, Bool.or_eq_true, decide_eq_true_eq] at hw
      rcases hw with ((hw | hw) | hw) | hw <;> (subst hw; exact absurd h (by decide))
  · intro he; subst he; exact absurd h (by decide)
  · intro he; subst he; exact absurd h (by decide)
  · intro he; subst he; exact absurd h (by decide)
  · intro he; subst he; exact absurd h (by decide)

theorem skipWs_cons_of_valueHead {c : Char} (h : isValueHead c = true) (l : List Char) :
    skipWs (c :: l) = c :: l := by
  rw [skipWs, (valueHead_facts h).1]
  simp

theorem skipWs_cons_of_not_ws {c : Char} (h : isWs c = false) (l : List Char) :
    skipWs (c :: l) = c :: l := by
  rw [skipWs, h]
  simp

theorem skipWs_space (l : List Char) : skipWs (' ' :: l) = skipWs l := by
  rw [skipWs]
  simp [isWs]

/-! ### Unfolding lemmas for the fuel-indexed readers -/

theorem parseVal_succ (fuel : Nat) (l : List Char) :
    parseVal (fuel + 1) l =
      match skipWs l with
      | [] => none
      | c :: cs =>
        if c = quoteC then
          match parseStrBody cs with
          | some (body, rest) => some (.str (String.mk body), rest)
          | none => none
        else if c = braceO then
          match skipWs cs with
          | c1 :: rest1 =>
            if c1 = braceC then some (.obj [], rest1)
            else
              match parseMembers (fun l2 => parseVal fuel l2) fuel (c1 :: rest1) with
              | some (fs, rest) => some (.obj fs, rest)
              | none => none
          | [] => none
        else if c = '[' then
          match skipWs cs with
          | c1 :: rest1 =>
            if c1 = ']' then some (.arr [], rest1)
            else
              match parseElems (fun l2 => parseVal fuel l2) fuel (c1 :: rest1) with
              | some (xs, rest) => some (.arr xs, rest)
              | none => none
          | [] =>
            match parseElems (fun l2 => parseVal fuel l2) fuel [] with
            | some (xs, rest) => some (.arr xs, rest)
            | none => none
        else if c = 't' then
          match cs with
          | 'r' :: 'u' :: 'e' :: rest => some (.bool true, rest)
          | _ => none
        else if c = 'f' then
          match cs with
          | 'a' :: 'l' :: 's' :: 'e' :: rest => some (.bool false, rest)
          | _ => none
        else if c = 'n' then
          match cs with
          | 'u' :: 'l' :: 'l' :: rest => some (.null, rest)
          | _ => none
        else if c = '-' || isDigitC c then
          match parseNum (c :: cs) with
          | some (n, rest) => some (.num n, rest)
          | none => none
        else none := by
  rw [parseVal.eq_def]

theorem parseElems_succ (pv : List Char → Option (JValue × List Char))
    (fuel : Nat) (l : List Char) :
    parseElems pv (fuel + 1) l =
      match pv l with
      | none => none
      | some (v, r) =>
        match skipWs r with
        | c :: r2 =>
          if c = ',' then
            match parseElems pv fuel r2 with
            | some (vs, rest) => some (v :: vs, rest)
            | none => none
          else if c = ']' then some ([v], r2)
          else none
        | [] => none := by
  rw [parseElems.eq_def]

theorem parseMembers_succ (pv : List Char → Option (JValue × List Char))
    (fuel : Nat) (l : List Char) :
    parseMembers pv (fuel + 1) l =
      match skipWs l with
      | [] => none
      | c :: cs =>
        if c = quoteC then
          match parseStrBody cs with
          | none => none
          | some (key, r1) =>
            match skipWs r1 with
            | c1 :: r2 =>
              if c1 = ':' then
                match pv r2 with
                | none => none
                | some (v, r3) =>
                  match skipWs r3 with
                  | c2 :: r4 =>
                    if c2 = ',' then
                      match parseMembers pv fuel r4 with
                      | some (fs, rest) => some ((String.mk key, v) :: fs, rest)
                      | none => none
                    else if c2 = braceC then some ([(String.mk key, v)], r4)
                    else none
                  | [] => none
              else none
            | [] => none
        else none := by
  rw [parseMembers.eq_def]

theorem parseVal_space (fuel : Nat) (l : List Char) :
    parseVal fuel (' ' :: l) = parseVal fuel l := by
  cases fuel with
  | zero => rfl
  | succ f => rw [parseVal_succ, parseVal_succ, skipWs_space]

theorem parseElems_space (pv : List Char → Option (JValue × List Char))
    (hpvs : ∀ l2, pv (' ' :: l2) = pv l2) (fuel : Nat) (l : List Char) :
    parseElems pv fuel (' ' :: l) = parseElems pv fuel l := by
  cases fuel with
  | zero => rfl
  | succ f => rw [parseElems_succ, parseElems_succ, hpvs]

theorem parseMembers_space (pv : List Char → Option (JValue × List Char))
    (fuel : Nat) (l : List Char) :
    parseMembers pv fuel (' ' :: l) = parseMembers pv fuel l := by
  cases fuel with
  | zero => rfl
  | succ f => rw [parseMembers_succ, parseMembers_succ, skipWs_space]

/-! ### Size bounds -/

theorem sizeJ_pos (v : JValue) : 1 ≤ sizeJ v := by
  cases v <;> simp [sizeJ]

theorem sizeArr_len (xs : List JValue) : xs.length ≤ sizeArr xs := by
  induction xs with
  | nil => simp [sizeArr]
  | cons x xs ih => simp only [List.length_cons, sizeArr]; omega

theorem sizeObj_len (fs : List (String × JValue)) : fs.length ≤ sizeObj fs := by
  induction fs with
  | nil => simp [sizeObj]
  | cons f fs ih => simp only [List.length_cons, sizeObj]; omega

theorem sizeJ_le_of_mem_arr {y : JValue} {xs : List JValue} (h : y ∈ xs) :
    sizeJ y ≤ sizeArr xs := by
  induction xs with
  | nil => cases h
  | cons x xs ih =>
    rcases List.mem_cons.mp h with h1 | h1
    · subst h1; simp only [sizeArr]; omega
    · have := ih h1; simp only [sizeArr]; omega

theorem sizeJ_le_of_mem_obj {y : JValue} {fs : List (String × JValue)}
    (h : ∃ k, (k, y) ∈ fs) : sizeJ y ≤ sizeObj fs := by
  induction fs with
  | nil => obtain ⟨k, hk⟩ := h; cases hk
  | cons f fs ih =>
    obtain ⟨k, hk⟩ := h
    rcases List.mem_cons.mp hk with h1 | h1
    · rw [← h1]; simp only [sizeObj]; omega
    · have := ih ⟨k, h1⟩; simp only [sizeObj]; omega

theorem noDigitHead_cons {c : Char} (h : isDigitC c = false) (l : List Char) :
    noDigitHead (c :: l) := by
  intro c2 hc2
  simp only [List.head?_cons, Option.some.injEq] at hc2
  exact hc2 ▸ h

theorem noDigitHead_nil : noDigitHead [] := by
  intro c hc
  simp at hc

/-! ### Round-trip of the structured readers -/

theorem parseElems_render (pv : List Char → Option (JValue × List Char))
    (hpvs : ∀ l2, pv (' ' :: l2) = pv l2) :
    ∀ (xs : List JValue) (x : JValue) (fuel : Nat) (rest : List Char),
      (∀ y rest2, (y = x ∨ y ∈ xs) → noDigitHead rest2 →
        pv (renderV y ++ rest2) = some (y, rest2)) →
      xs.length < fuel →
      parseElems pv fuel (renderV x ++ (renderElems xs ++ ']' :: rest))
        = some (x :: xs, rest) := by
  intro xs
  induction xs with
  | nil =>
    intro x fuel rest hpv hf
    obtain ⟨f, rfl⟩ : ∃ f, fuel = f + 1 := ⟨fuel - 1, by omega⟩
    rw [parseElems_succ]
    rw [show renderElems ([] : List JValue) ++ ']' :: rest = ']' :: rest from rfl]
    rw [hpv x (']' :: rest) (Or.inl rfl) (noDigitHead_cons (by decide) _)]
    simp only [skipWs_cons_of_not_ws (by decide : isWs ']' = false),
      if_neg (by decide : ¬((']' : Char) = ',')),
      if_pos (rfl : (']' : Char) = ']')]
    rfl
  | cons y ys ih =>
    intro x fuel rest hpv hf
    obtain ⟨f, rfl⟩ : ∃ f, fuel = f + 1 := ⟨fuel - 1, by omega⟩
    rw [parseElems_succ]
    rw [show renderElems (y :: ys) ++ ']' :: rest
        = ',' :: ' ' :: (renderV y ++ (renderElems ys ++ ']' :: rest)) by
      simp [renderElems, List.append_assoc]]
    rw [hpv x _ (Or.inl rfl) (noDigitHead_cons (by decide) _)]
    simp only [skipWs_cons_of_not_ws (by decide : isWs ',' = false),
      if_pos (rfl : (',' : Char) = ',')]
    rw [parseElems_space pv hpvs]
    rw [ih y f rest (fun z rest2 hz hnd => hpv z rest2 (by
        rcases hz with hz | hz
        · exact Or.inr (hz ▸ List.mem_cons_self y ys)
        · exact Or.inr (List.mem_cons_of_mem y hz)) hnd)
      (by simp at hf ⊢; omega)]
    rfl

theorem parseMembers_render (pv : List Char → Option (JValue × List Char))
    (hpvs : ∀ l2, pv (' ' :: l2) = pv l2) :
    ∀ (fs : List (String × JValue)) (k : String) (v : JValue) (fuel : Nat)
      (rest : List Char),
      (∀ y rest2, (y = v ∨ ∃ k2, (k2, y) ∈ fs) → noDigitHead rest2 →
        pv (renderV y ++ rest2) = some (y, rest2)) →
      fs.length < fuel →
      parseMembers pv fuel (renderMember (k, v) ++ (renderMembers fs ++ braceC :: rest))
        = some ((k, v) :: fs, rest) := by
  intro fs
  induction fs with
  | nil =>
    intro k v fuel rest hpv hf
    obtain ⟨f, rfl⟩ : ∃ f, fuel = f + 1 := ⟨fuel - 1, by omega⟩
    rw [parseMembers_succ]
    rw [show renderMember (k, v) ++ (renderMembers [] ++ braceC :: rest)
        = quoteC :: (escStr k.data ++ quoteC ::
            (':' :: ' ' :: (renderV v ++ braceC :: rest))) by
      simp [renderMember, renderMembers, List.append_assoc]]
    rw [skipWs_cons_of_not_ws (by decide : isWs quoteC = false)]
    simp only [if_pos (rfl : quoteC = quoteC)]
    rw [parseStrBody_escStr]
    simp only [skipWs_cons_of_not_ws (by decide : isWs ':' = false),
      if_pos (rfl : (':' : Char) = ':')]
    rw [hpvs, hpv v (braceC :: rest) (Or.inl rfl)
      (noDigitHead_cons (by decide) _)]
    simp only [skipWs_cons_of_not_ws (by decide : isWs braceC = false),
      if_neg (by decide : ¬(braceC = ',')),
      if_pos (rfl : braceC = braceC)]
    rfl
  | cons g gs ih =>
    intro k v fuel rest hpv hf
    obtain ⟨f, rfl⟩ : ∃ f, fuel = f + 1 := ⟨fuel - 1, by omega⟩
    rw [parseMembers_succ]
    rw [show renderMember (k, v) ++ (renderMembers (g :: gs) ++ braceC :: rest)
        = quoteC :: (escStr k.data ++ quoteC :: (':' :: ' ' :: (renderV v ++
            ',' :: ' ' :: (renderMember g ++ (renderMembers gs ++ braceC :: rest))))) by
      simp [renderMember, renderMembers, List.append_assoc]]
    rw [skipWs_cons_of_not_ws (by decide : isWs quoteC = false)]
    simp only [if_pos (rfl : quoteC = quoteC)]
    rw [parseStrBody_escStr]
    simp only [skipWs_cons_of_not_ws (by decide : isWs ':' = false),
      if_pos (rfl : (':' : Char) = ':')]
    rw [hpvs, hpv v _ (Or.inl rfl) (noDigitHead_cons (by decide) _)]
    simp only [skipWs_cons_of_not_ws (by decide : isWs ',' = false),
      if_pos (rfl : (',' : Char) = ',')]
    rw [parseMembers_space]
    cases g with
    | mk k2 v2 =>
      rw [ih k2 v2 f rest (fun z rest2 hz hnd => hpv z rest2 (by
          rcases hz with hz | ⟨k3, hz⟩
          · exact Or.inr ⟨k2, hz ▸ List.mem_cons_self _ _⟩
          · exact Or.inr ⟨k3, List.mem_cons_of_mem _ hz⟩) hnd)
        (by simp at hf ⊢; omega)]
      rfl

theorem intRender_head (n : Int) :
    ∃ c l, intRender n = c :: l ∧ (c = '-' ∨ isDigitC c = true) := by
  rw [intRender]
  by_cases h : n < 0
  · exact ⟨'-', _, by rw [if_pos h], Or.inl rfl⟩
  · rw [if_neg h]
    obtain ⟨c, cs, hc⟩ : ∃ c cs, natDigits n.toNat = c :: cs := by
      cases hx : natDigits n.toNat with
      | nil => exact absurd hx (natDigits_ne_nil _)
      | cons c cs => exact ⟨c, cs, rfl⟩
    exact ⟨c, cs, hc, Or.inr (natDigits_digits n.toNat c (by simp [hc]))⟩

theorem numHead_facts {c : Char} (h : c = '-' ∨ isDigitC c = true) :
    c ≠ quoteC ∧ c ≠ braceO ∧ c ≠ '[' ∧ c ≠ 't' ∧ c ≠ 'f' ∧ c ≠ 'n' ∧
      (c = '-' || isDigitC c) = true ∧ isWs c = false := by
  rcases h with h | h
  · subst h
    exact ⟨by decide, by decide, by decide, by decide, by decide, by decide,
      by decide, by decide⟩
  · have hv : isValueHead c = true := by simp [isValueHead, h]
    refine ⟨?_, ?_, ?_, ?_, ?_, ?_, by simp [h], (valueHead_facts hv).1⟩
    all_goals intro he; subst he; exact absurd h (by decide)

/-- The central round-trip theorem: with enough fuel, parsing a rendered
value consumes exactly the rendering and returns the value. -/
theorem parseVal_renderV : ∀ (fuel : Nat) (v : JValue) (rest : List Char),
    sizeJ v ≤ fuel → noDigitHead rest →
    parseVal fuel (renderV v ++ rest) = some (v, rest) := by
  intro fuel
  induction fuel with
  | zero =>
    intro v rest hs _
    have := sizeJ_pos v
    omega
  | succ f ih =>
    intro v rest hs hr
    have hsp : ∀ l2, parseVal f (' ' :: l2) = parseVal f l2 := parseVal_space f
    cases v with
    | null =>
      rw [show renderV .null ++ rest = 'n' :: 'u' :: 'l' :: 'l' :: rest from rfl]
      rw [parseVal_succ]
      rw [skipWs_cons_of_not_ws (by decide : isWs 'n' = false)]
      simp only [if_neg (by decide : ¬(('n' : Char) = quoteC)),
        if_neg (by decide : ¬(('n' : Char) = braceO)),
        if_neg (by decide : ¬(('n' : Char) = '[')),
        if_neg (by decide : ¬(('n' : Char) = 't')),
        if_neg (by decide : ¬(('n' : Char) = 'f')),
        if_pos (rfl : ('n' : Char) = 'n')]
      rfl
    | bool b =>
      cases b with
      | true =>
        rw [show renderV (.bool true) ++ rest = 't' :: 'r' :: 'u' :: 'e' :: rest from rfl]
        rw [parseVal_succ]
        rw [skipWs_cons_of_not_ws (by decide : isWs 't' = false)]
        simp only [if_neg (by decide : ¬(('t' : Char) = quoteC)),
          if_neg (by decide : ¬(('t' : Char) = braceO)),
          if_neg (by decide : ¬(('t' : Char) = '[')),
          if_pos (rfl : ('t' : Char) = 't')]
        rfl
      | false =>
        rw [show renderV (.bool false) ++ rest
            = 'f' :: 'a' :: 'l' :: 's' :: 'e' :: rest from rfl]
        rw [parseVal_succ]
        rw [skipWs_cons_of_not_ws (by decide : isWs 'f' = false)]
        simp only [if_neg (by decide : ¬(('f' : Char) = quoteC)),
          if_neg (by decide : ¬(('f' : Char) = braceO)),
          if_neg (by decide : ¬(('f' : Char) = '[')),
          if_neg (by decide : ¬(('f' : Char) = 't')),
          if_pos (rfl : ('f' : Char) = 'f')]
        rfl
    | num n =>
      obtain ⟨c0, l0, hc0, hform⟩ := intRender_head n
      obtain ⟨h1, h2, h3, h4, h5, h6, h7, h8⟩ := numHead_facts hform
      rw [show renderV (.num n) ++ rest = intRender n ++ rest from rfl]
      rw [hc0, List.cons_append, parseVal_succ]
      rw [skipWs_cons_of_not_ws h8]
      simp only [if_neg h1, if_neg h2, if_neg h3, if_neg h4, if_neg h5,
        if_neg h6, if_pos h7]
      rw [← List.cons_append, ← hc0, parseNum_intRender n rest hr]
    | str s =>
      rw [show renderV (.str s) ++ rest
          = quoteC :: (escStr s.data ++ quoteC :: rest) by
        simp [renderV, List.append_assoc]]
      rw [parseVal_succ]
      rw [skipWs_cons_of_not_ws (by decide : isWs quoteC = false)]
      simp only [if_pos (rfl : quoteC = quoteC)]
      rw [parseStrBody_escStr]
      rfl
    | arr xs =>
      cases xs with
      | nil =>
        rw [show renderV (.arr []) ++ rest = '[' :: ']' :: rest from rfl]
        rw [parseVal_succ]
        rw [skipWs_cons_of_not_ws (by decide : isWs '[' = false)]
        simp only [if_neg (by decide : ¬(('[' : Char) = quoteC)),
          if_neg (by decide : ¬(('[' : Char) = braceO)),
          if_pos (rfl : ('[' : Char) = '[')]
        rw [skipWs_cons_of_not_ws (by decide : isWs ']' = false)]
        simp only [if_pos (rfl : (']' : Char) = ']')]
        rfl
      | cons x xs =>
        have hsz : sizeArr (x :: xs) ≤ f := by
          have : sizeJ (.arr (x :: xs)) = 1 + sizeArr (x :: xs) := rfl
          omega
        have hszx : 1 + sizeJ x + sizeArr xs = sizeArr (x :: xs) := rfl
        rw [show renderV (.arr (x :: xs)) ++ rest
            = '[' :: (renderV x ++ (renderElems xs ++ ']' :: rest)) by
          simp [renderV, List.append_assoc]]
        rw [parseVal_succ]
        rw [skipWs_cons_of_not_ws (by decide : isWs '[' = false)]
        simp only [if_neg (by decide : ¬(('[' : Char) = quoteC)),
          if_neg (by decide : ¬(('[' : Char) = braceO)),
          if_pos (rfl : ('[' : Char) = '[')]
        obtain ⟨c0, l0, hc0⟩ := renderV_head x
        obtain ⟨hw, hbr, _, _, _⟩ := valueHead_facts hc0.2
        rw [hc0.1, List.cons_append]
        rw [skipWs_cons_of_not_ws hw]
        simp only [if_neg hbr]
        rw [← List.cons_append, ← hc0.1]
        rw [parseElems_render (fun l2 => parseVal f l2) hsp xs x f rest
          (fun z rest2 hz hnd => by
            refine ih z rest2 ?_ hnd
            rcases hz with hz | hz
            · subst hz; omega
            · have := sizeJ_le_of_mem_arr hz; omega)
          (by have := sizeArr_len xs; have := sizeJ_pos x; omega)]
        rfl
    | obj fs =>
      cases fs with
      | nil =>
        rw [show renderV (.obj []) ++ rest = braceO :: braceC :: rest from rfl]
        rw [parseVal_succ]
        rw [skipWs_cons_of_not_ws (by decide : isWs braceO = false)]
        simp only [if_neg (by decide : ¬(braceO = quoteC)),
          if_pos (rfl : braceO = braceO)]
        rw [skipWs_cons_of_not_ws (by decide : isWs braceC = false)]
        simp only [if_pos (rfl : braceC = braceC)]
        rfl
      | cons g gs =>
        cases g with
        | mk k v =>
          have hsz : sizeObj ((k, v) :: gs) ≤ f := by
            have : sizeJ (.obj ((k, v) :: gs)) = 1 + sizeObj ((k, v) :: gs) := rfl
            omega
          have hszv : 1 + sizeJ v + sizeObj gs = sizeObj ((k, v) :: gs) := rfl
          rw [show renderV (.obj ((k, v) :: gs)) ++ rest
              = braceO :: (renderMember (k, v) ++ (renderMembers gs ++ braceC :: rest)) by
            simp [renderV, List.append_assoc]]
          rw [parseVal_succ]
          rw [skipWs_cons_of_not_ws (by decide : isWs braceO = false)]
          simp only [if_neg (by decide : ¬(braceO = quoteC)),
            if_pos (rfl : braceO = braceO)]
          rw [show renderMember (k, v) ++ (renderMembers gs ++ braceC :: rest)
              = quoteC :: (escStr k.data ++ [quoteC, ':', ' ']
                  ++ renderV v ++ (renderMembers gs ++ braceC :: rest)) by
            simp [renderMember, List.append_assoc]]
          rw [skipWs_cons_of_not_ws (by decide : isWs quoteC = false)]
          simp only [if_neg (by decide : ¬(quoteC = braceC))]
          rw [show quoteC :: (escStr k.data ++ [quoteC, ':', ' ']
                  ++ renderV v ++ (renderMembers gs ++ braceC :: rest))
              = renderMember (k, v) ++ (renderMembers gs ++ braceC :: rest) by
            simp [renderMember, List.append_assoc]]
          rw [parseMembers_render (fun l2 => parseVal f l2) hsp gs k v f rest
            (fun z rest2 hz hnd => by
              refine ih z rest2 ?_ hnd
              rcases hz with hz | hz
              · subst hz; omega
              · have := sizeJ_le_of_mem_obj hz; omega)
            (by have := sizeObj_len gs; have := sizeJ_pos v; omega)]
          rfl

mutual

theorem sizeJ_le_renderV_len : ∀ v : JValue, sizeJ v ≤ (renderV v).length + 1
  | .null => by simp [sizeJ, renderV]
  | .bool b => by cases b <;> simp [sizeJ, renderV]
  | .num n => by simp [sizeJ]
  | .str s => by simp [sizeJ]
  | .arr [] => by simp [sizeJ, sizeArr, renderV]
  | .arr (x :: xs) => by
    have h1 := sizeJ_le_renderV_len x
    have h2 := sizeArr_le_renderElems_len xs
    have hs : sizeJ (.arr (x :: xs)) = 1 + (1 + sizeJ x + sizeArr xs) := rfl
    have hr : (renderV (.arr (x :: xs))).length
        = 1 + (renderV x).length + (renderElems xs).length + 1 := by
      show ('[' :: renderV x ++ renderElems xs ++ [']']).length = _
      simp [List.length_append]
      omega
    omega
  | .obj [] => by simp [sizeJ, sizeObj, renderV]
  | .obj (f :: fs) => by
    have h1 := sizeJ_le_renderV_len f.2
    have h2 := sizeObj_le_renderMembers_len fs
    have hs : sizeJ (.obj (f :: fs)) = 1 + (1 + sizeJ f.2 + sizeObj fs) := rfl
    have hm : (renderMember f).length
        = 4 + (escStr f.1.data).length + (renderV f.2).length := by
      cases f with
      | mk k v =>
        show (quoteC :: escStr k.data ++ [quoteC, ':', ' '] ++ renderV v).length = _
        simp [List.length_append]
        omega
    have hr : (renderV (.obj (f :: fs))).length
        = 1 + (renderMember f).length + (renderMembers fs).length + 1 := by
      cases f with
      | mk k v =>
        show (braceO :: renderMember (k, v) ++ renderMembers fs ++ [braceC]).length = _
        simp [List.length_append]
        omega
    omega

theorem sizeArr_le_renderElems_len : ∀ xs : List JValue,
    sizeArr xs ≤ (renderElems xs).length
  | [] => by simp [sizeArr, renderElems]
  | x :: xs => by
    have h1 := sizeJ_le_renderV_len x
    have h2 := sizeArr_le_renderElems_len xs
    have hs : sizeArr (x :: xs) = 1 + sizeJ x + sizeArr xs := rfl
    have hr : (renderElems (x :: xs)).length
        = 2 + (renderV x).length + (renderElems xs).length := by
      show ([',', ' '] ++ renderV x ++ renderElems xs).length = _
      simp [List.length_append]
      omega
    omega

theorem sizeObj_le_renderMembers_len : ∀ fs : List (String × JValue),
    sizeObj fs ≤ (renderMembers fs).length
  | [] => by simp [sizeObj, renderMembers]
  | f :: fs => by
    have h1 := sizeJ_le_renderV_len f.2
    have h2 := sizeObj_le_renderMembers_len fs
    have hs : sizeObj (f :: fs) = 1 + sizeJ f.2 + sizeObj fs := rfl
    have hm : (renderMember f).length
        = 4 + (escStr f.1.data).length + (renderV f.2).length := by
      cases f with
      | mk k v =>
        show (quoteC :: escStr k.data ++ [quoteC, ':', ' '] ++ renderV v).length = _
        simp [List.length_append]
        omega
    have hr : (renderMembers (f :: fs)).length
        = 2 + (renderMember f).length + (renderMembers fs).length := by
      show ([',', ' '] ++ renderMember f ++ renderMembers fs).length = _
      simp [List.length_append]
      omega
    omega

end

/-- Parsing a dumped message gives back the message: the encode-parse
round trip at the level of whole frames. -/
theorem load_message_dump_message (v : JValue) :
    load_message (dump_message v) = some v := by
  rw [load_message]
  have hd : (dump_message v).data = renderV v := rfl
  rw [hd]
  have hb : sizeJ v ≤ (renderV v).length + 1 := sizeJ_le_renderV_len v
  have h := parseVal_renderV ((renderV v).length + 1) v [] hb noDigitHead_nil
  rw [List.append_nil] at h
  rw [h]
  rfl

/-! ## proto.py: transport constants, truthiness, message construction -/

/-- proto.BaseProtocol.TRANS_READY (1000, connection ready). -/
def TRANS_READY : Int := 1000

/-- proto.BaseProtocol.TRANS_PING (1001). -/
def TRANS_PING : Int := 1001

/-- proto.BaseProtocol.TRANS_PONG (1002). -/
def TRANS_PONG : Int := 1002

/-- proto.BaseProtocol.TRANS_SERV_GOT_IT (100). -/
def TRANS_SERV_GOT_IT : Int := 100

/-- proto.BaseProtocol.TRANS_RECV_GOT_IT (200). -/
def TRANS_RECV_GOT_IT : Int := 200

/-- proto.BaseProtocol.TRANS_DELIVERED (300). -/
def TRANS_DELIVERED : Int := 300

/-- proto.BaseProtocol.TRANS_TYPES, exactly as the source tuple lists it:
(TRANS_PING, TRANS_PONG, TRANS_SERV_GOT_IT, TRANS_RECV_GOT_IT,
TRANS_DELIVERED).  TRANS_READY is not a member. -/
def TRANS_TYPES : List Int :=
  [TRANS_PING, TRANS_PONG, TRANS_SERV_GOT_IT, TRANS_RECV_GOT_IT, TRANS_DELIVERED]

/-- Python equality of a JSON value against an int literal (as in
message['type'] == 1001): only an integer value can be equal. -/
def jIsNum (v : JValue) (n : Int) : Bool :=
  match v with
  | .num k => k == n
  | _ => false

/-- The membership test message['type'] in TRANS_TYPES. -/
def inTransTypes (v : JValue) : Bool :=
  TRANS_TYPES.any (fun n => jIsNum v n)

/-- Python truthiness of a JSON-decoded value. -/
def truthy : JValue → Bool
  | .null => false
  | .bool b => b
  | .num n => !(n == 0)
  | .str s => !(s == "")
  | .arr xs => !xs.isEmpty
  | .obj fs => !fs.isEmpty

/-- Python str() of a JSON-decoded value, used by make_message on the
id, dest, sign and from fields and by the redis key formatting.  Atomic
values follow Python exactly; container reprs are approximated by the
JSON dump (the claims only exercise atomic values here). -/
def pyStr : JValue → String
  | .str s => s
  | .num n => String.mk (intRender n)
  | .bool true => "True"
  | .bool false => "False"
  | .null => "None"
  | .arr xs => dump_message (.arr xs)
  | .obj fs => dump_message (.obj fs)

/-- Dictionary field lookup (json.loads keeps the last value bound to a
duplicated key, so the rightmost binding wins). -/
def getField (fields : List (String × JValue)) (k : String) : Option JValue :=
  fields.reverse.lookup k

/-- Python errors surfaced by the embedded fragment. -/
inductive Err where
  | keyError
  | typeError
  | valueError
  | attributeError
deriving DecidableEq

/-- Subscript access message[k]: KeyError on a missing key, TypeError on
a non-dict. -/
def pyGetItem (m : JValue) (k : String) : Except Err JValue :=
  match m with
  | .obj fs =>
    match getField fs k with
    | some v => .ok v
    | none => .error .keyError
  | _ => .error .typeError

/-- One optional field of make_message: present iff the argument was
passed and is truthy, transformed by f (str() for the string-coerced
fields, identity otherwise). -/
def addIf (name : String) (o : Option JValue) (f : JValue → JValue) :
    List (String × JValue) :=
  match o with
  | some v => if truthy v then [(name, f v)] else []
  | none => []

/-- proto.BaseProtocol.make_message: builds the dict in the source body
order (id, type, time, data, dest, sign, from), omitting absent or falsy
arguments, and applying str() to id, dest, sign and from. -/
def make_message (id type time dest from_ sign data : Option JValue) : JValue :=
  .obj (addIf "id" id (fun v => .str (pyStr v)) ++
        addIf "type" type (fun v => v) ++
        addIf "time" time (fun v => v) ++
        addIf "data" data (fun v => v) ++
        addIf "dest" dest (fun v => .str (pyStr v)) ++
        addIf "sign" sign (fun v => .str (pyStr v)) ++
        addIf "from" from_ (fun v => .str (pyStr v)))

/-! ## base.py: the messages center -/

/-- The connection surface the center uses: websocket.get_channel(). -/
structure Conn where
  channel : String

/-- The outcome of route.process, as the center discriminates it:
True halts the chain, a string nominates a channel, anything else
(None included) is passed over. -/
inductive RouteResult where
  | halt
  | chan (c : String)
  | skip
deriving DecidableEq

/-- Observable effects of one process call, in program order. -/
inductive Event where
  | write (v : JValue)
  | routeCall (i : Nat)
  | put (channels : List String) (msg : JValue) (fromCh : Option String)
  | popDel (channel : String) (msgId : JValue)
  | spawnPost (i : Nat) (channel : String)

/-- BaseMessagesCenter.transport.  The queue's pop_delivered is a
parameter (popd); its events are recorded in the trace. -/
def transport (popd : String → JValue → Option (JValue × String))
    (m : JValue) (ws : Conn) : List Event × Option Err :=
  match pyGetItem m "type" with
  | .error e => ([], some e)
  | .ok t =>
    if inTransTypes t then
      if jIsNum t TRANS_PING then
        ([.write (make_message none (some (.num TRANS_PONG)) none none none none none)],
         none)
      else if jIsNum t TRANS_RECV_GOT_IT then
        match pyGetItem m "data" with
        | .error e => ([], some e)
        | .ok mid =>
          match popd ws.channel mid with
          | some (dm, fc) =>
            match pyGetItem dm "id" with
            | .error e => ([.popDel ws.channel mid], some e)
            | .ok dmid =>
              ([.popDel ws.channel mid,
                .put [fc]
                  (make_message none (some (.num TRANS_DELIVERED)) none none none none
                    (some dmid)) none],
               none)
          | none => ([.popDel ws.channel mid], none)
      else ([], none)
    else
      match pyGetItem m "id" with
      | .error e => ([], some e)
      | .ok mid =>
        ([.write (make_message none (some (.num TRANS_SERV_GOT_IT)) none none none none
            (some mid))],
         none)

/-- The route-chain walk of BaseMessagesCenter.process: invoke each
route in order, break on True, collect (route, channel) for string
results. -/
def walkRoutes (routes : List (JValue → RouteResult)) (i : Nat) (m : JValue) :
    List Event × List (Nat × String) :=
  match routes with
  | [] => ([], [])
  | r :: rs =>
    match r m with
    | .halt => ([.routeCall i], [])
    | .chan c =>
      let p := walkRoutes rs (i + 1) m
      (.routeCall i :: p.1, (i, c) :: p.2)
    | .skip =>
      let p := walkRoutes rs (i + 1) m
      (.routeCall i :: p.1, p.2)

/-- The data-message phase of BaseMessagesCenter.process: walk the
chain, enqueue to the collected channels when nonempty (from_channel is
the connection channel when a connection exists), then spawn
post_process tasks per collected pair. -/
def dataPhase (routes : List (JValue → RouteResult)) (m : JValue)
    (ws : Option Conn) (ev1 : List Event) : List Event × Option Err :=
  let p := walkRoutes routes 0 m
  let putEvs :=
    if p.2.isEmpty then []
    else [Event.put (p.2.map (fun d => d.2)) m (ws.map (fun w => w.channel))]
  let postEvs := p.2.map (fun d => Event.spawnPost d.1 d.2)
  (ev1 ++ p.1 ++ putEvs ++ postEvs, none)

/-- BaseMessagesCenter.process on an already-parsed message. -/
def processMsg (routes : List (JValue → RouteResult))
    (popd : String → JValue → Option (JValue × String))
    (m : JValue) (ws : Option Conn) : List Event × Option Err :=
  match ws with
  | some w =>
    match transport popd m w with
    | (ev1, some e) => (ev1, some e)
    | (ev1, none) =>
      match pyGetItem m "type" with
      | .error e => (ev1, some e)
      | .ok t =>
        if inTransTypes t then (ev1, none)
        else dataPhase routes m (some w) ev1
  | none => dataPhase routes m none []

/-- BaseMessagesCenter.process: parse a raw frame if needed (a parse
failure is caught, logged and dropped), then run the transport layer and
the routing chain. -/
def process (routes : List (JValue → RouteResult))
    (popd : String → JValue → Option (JValue × String))
    (raw_or_message : Sum String JValue) (ws : Option Conn) :
    List Event × Option Err :=
  match raw_or_message with
  | .inl s =>
    match load_message s with
    | none => ([], none)
    | some m => processMsg routes popd m ws
  | .inr m => processMsg routes popd m ws

/-! ## redis.py: Redis list state and the two queues

The Redis database is a map from keys to lists of strings (every key the
code touches holds a list).  The head of the Lean list is the left end of
the Redis list. -/

/-- The Redis store. -/
def RState : Type := String → List String

/-- Point update of the store. -/
def updateK (st : RState) (k : String) (l : List String) : RState :=
  fun k2 => if k2 = k then l else st k2

/-- LPUSH k v. -/
def lpushK (st : RState) (k : String) (v : String) : RState :=
  updateK st k (v :: st k)

/-- RPUSH k v1 v2. -/
def rpush2K (st : RState) (k : String) (v1 v2 : String) : RState :=
  updateK st k (st k ++ [v1, v2])

/-- LPOP k. -/
def lpopK (st : RState) (k : String) : Option String × RState :=
  match st k with
  | [] => (none, st)
  | x :: xs => (some x, updateK st k xs)

/-- LREM k 1 v: remove the first occurrence of v. -/
def lremFirst (st : RState) (k : String) (v : String) : RState :=
  updateK st k ((st k).erase v)

/-- LREM k 0 v: remove every occurrence of v. -/
def lremAll (st : RState) (k : String) (v : String) : RState :=
  updateK st k ((st k).filter (fun x => !(x == v)))

/-- LINDEX k 0. -/
def lindex0 (st : RState) (k : String) : Option String :=
  (st k).head?

/-- LLEN k. -/
def llenK (st : RState) (k : String) : Nat :=
  (st k).length

/-- BRPOPLPUSH src dst: atomically take the rightmost element of src and
push it on the left of dst. -/
def brpoplpushK (st : RState) (src dst : String) : Option String × RState :=
  match (st src).getLast? with
  | none => (none, st)
  | some v =>
    let st1 := updateK st src (st src).dropLast
    (some v, lpushK st1 dst v)

/-- Python str.startswith. -/
def pyStartsWith (s pre : String) : Bool :=
  pre.data.isPrefixOf s.data

/-- What put_message receives: a message dict or a raw string (the close
sentinel is enqueued as a raw string). -/
inductive QMsg where
  | dict (fields : List (String × JValue))
  | str (s : String)

/-- RedisQueue.CLOSE_COMMAND. -/
def CLOSE_COMMAND : String := "!"

/-- RedisQueue.put_message (best-effort): dump the message if it is not
already a string and LPUSH the raw frame to every destination channel in
order. -/
def put_message_be (channels : List String) (message : QMsg) (st : RState) : RState :=
  let raw := match message with
    | .str s => s
    | .dict fields => dump_message (.obj fields)
  channels.foldl (fun acc ch => lpushK acc ch raw) st

/-- What one iteration of the best-effort listener does with the popped
value. -/
inductive LAction where
  | exit
  | write (s : String)
  | idle
deriving DecidableEq

/-- One iteration of RedisQueue.listen_queue: after the blocking pop
returns, first check the closed flag and exit (discarding any popped
value); else write the popped value verbatim when there is one. -/
def listen_step (is_closed : Bool) (popped : Option String) : LAction :=
  if is_closed then .exit
  else
    match popped with
    | some v => .write v
    | none => .idle

/-- The queue effect of RedisQueue.del_socket: enqueue the close sentinel
onto the connection's own channel (the socket's is_closed flag is set to
True separately, on that same socket only). -/
def del_socket_queue (channel : String) (st : RState) : RState :=
  put_message_be [channel] (.str CLOSE_COMMAND) st

/-- One destination channel of ReliableRedisQueue.put_message: a dict
bearing an id gets its dump and from-channel (or empty string) RPUSHed
under the message key "channel:id" and the key LPUSHed on the channel
list; otherwise the raw frame is LPUSHed directly. -/
def put_one (message : QMsg) (from_channel : Option String) (st : RState)
    (channel : String) : RState :=
  match message with
  | .dict fields =>
    let message_dump := dump_message (.obj fields)
    match getField fields "id" with
    | some idv =>
      if message_dump = "" then lpushK st channel message_dump
      else
        let message_key := channel ++ ":" ++ pyStr idv
        let st1 := rpush2K st message_key message_dump (from_channel.getD "")
        lpushK st1 channel message_key
    | none => lpushK st channel message_dump
  | .str s => lpushK st channel s

/-- ReliableRedisQueue.put_message over the destination list. -/
def put_message_rel (channels : List String) (message : QMsg)
    (from_channel : Option String) (st : RState) : RState :=
  channels.foldl (put_one message from_channel) st

/-- ReliableRedisQueue.check_delivered: llen(channel:id) == 0. -/
def check_delivered (channel message_id : String) (st : RState) : Bool :=
  llenK st (channel ++ ":" ++ message_id) == 0

/-- ReliableRedisQueue.pop_delivered: LPOP the frame, LPOP the
from-channel, LREM one occurrence of the key from the wait queue; then
return the decoded pair if the first pop was truthy (an empty or missing
frame returns nothing; a non-JSON frame raises ValueError, and a missing
second pop raises AttributeError on None.decode). -/
def pop_delivered (channel message_id : String) (st : RState) :
    RState × Except Err (Option (JValue × String)) :=
  let message_key := channel ++ ":" ++ message_id
  let wait_queue := channel ++ ":wait"
  let p1 := lpopK st message_key
  let p2 := lpopK p1.2 message_key
  let st3 := lremFirst p2.2 wait_queue message_key
  match p1.1 with
  | none => (st3, .ok none)
  | some raw =>
    if raw = "" then (st3, .ok none)
    else
      match load_message raw with
      | none => (st3, .error .valueError)
      | some msg =>
        match p2.1 with
        | none => (st3, .error .attributeError)
        | some fc => (st3, .ok (some (msg, fc)))

/-- What one iteration of the reliable listener produced. -/
inductive RelStep where
  | closed
  | wrote (s : String)
  | silent
deriving DecidableEq

/-- One iteration of the main loop of ReliableRedisQueue.listen_queue:
BRPOPLPUSH from the channel into the wait queue; a close sentinel is
LREMed (all occurrences) from the wait queue and ends the listener; a
value starting with the channel is a message key whose stored frame at
index 0 is written when truthy and which stays in the wait queue; any
other value is written verbatim and LPOPed back off the wait queue. -/
def listen_iter (channel : String) (st : RState) : RState × Option RelStep :=
  let wait_queue := channel ++ ":wait"
  match brpoplpushK st channel wait_queue with
  | (none, st1) => (st1, none)
  | (some val, st1) =>
    if val = CLOSE_COMMAND then
      (lremAll st1 wait_queue CLOSE_COMMAND, some .closed)
    else if pyStartsWith val channel then
      match lindex0 st1 val with
      | some message_dump =>
        if message_dump = "" then (st1, some .silent)
        else (st1, some (.wrote message_dump))
      | none => (st1, some .silent)
    else
      ((lpopK st1 wait_queue).2, some (.wrote val))

/-- The loop of ReliableRedisQueue._send_wait_queue over the (already
reversed) snapshot of the wait queue: entries starting with the channel
are looked up (LINDEX key 0) and the stored frame is written when truthy,
the entry staying put; any other entry is removed from the live wait
queue with LREM count 1 and nothing is written. -/
def send_wait_go (channel wait_queue : String) :
    List String → RState → List String → RState × List String
  | [], st, acc => (st, acc)
  | val :: vs, st, acc =>
    if pyStartsWith val channel then
      match lindex0 st val with
      | some message_dump =>
        if message_dump = "" then send_wait_go channel wait_queue vs st acc
        else send_wait_go channel wait_queue vs st (acc ++ [message_dump])
      | none => send_wait_go channel wait_queue vs st acc
    else
      send_wait_go channel wait_queue vs (lremFirst st wait_queue val) acc

/-- ReliableRedisQueue._send_wait_queue: LRANGE the whole wait queue and
walk it from the right (oldest first); returns the final state and the
frames written, in order. -/
def send_wait_queue (channel : String) (st : RState) : RState × List String :=
  let wait_queue := channel ++ ":wait"
  send_wait_go channel wait_queue (st wait_queue).reverse st []

/-! ## Helper facts about strings and dumps -/

theorem string_data_append (a b : String) : (a ++ b).data = a.data ++ b.data := by
  cases a
  cases b
  rfl

theorem append_colon_ne (ch x : String) : ch ++ ":" ++ x ≠ ch := by
  intro h
  have hd := congrArg (fun s => s.data.length) h
  simp only [string_data_append, List.length_append, List.length_cons,
    List.length_nil] at hd
  omega

theorem dump_obj_ne_empty (fields : List (String × JValue)) :
    dump_message (.obj fields) ≠ "" := by
  cases fields with
  | nil => intro h; exact absurd (congrArg String.data h) (by decide)
  | cons f fs =>
    intro h
    have hd := congrArg String.data h
    have : (dump_message (.obj (f :: fs))).data
        = braceO :: (renderMember f ++ renderMembers fs ++ [braceC]) := rfl
    rw [this] at hd
    exact absurd hd (by simp)

/-! ## Claim theorems -/

/-- C8: for every syntactically valid JSON wire frame x, the dump of its
parse is a frame that parses to the very same record (the encode-parse
round trip, for data and transport messages alike). -/
theorem C8_encode_parse_roundtrip (x : String) (v : JValue)
    (_h : load_message x = some v) :
    load_message (dump_message v) = some v :=
  load_message_dump_message v

/-- Witness for C8 on a concrete transport frame and a concrete data
frame record. -/
theorem C8_encode_parse_roundtrip_witness :
    load_message "\x7b\"id\": \"x\", \"type\": \"chat\", \"data\": \"hi\"\x7d"
        = some (.obj [("id", .str "x"), ("type", .str "chat"), ("data", .str "hi")]) ∧
      load_message (dump_message
        (.obj [("id", .str "x"), ("type", .str "chat"), ("data", .str "hi")]))
        = some (.obj [("id", .str "x"), ("type", .str "chat"), ("data", .str "hi")]) :=
  ⟨rfl, C8_encode_parse_roundtrip
    "\x7b\"id\": \"x\", \"type\": \"chat\", \"data\": \"hi\"\x7d" _ rfl⟩

/-- C9: process on a connection with a data message (type present and not
a transport code) that has no id field raises KeyError while building the
type-100 reply: nothing is written, no route runs, nothing is enqueued. -/
theorem C9_missing_id_keyerror (routes : List (JValue → RouteResult))
    (popd : String → JValue → Option (JValue × String)) (m : JValue) (w : Conn)
    (t : JValue) (ht : pyGetItem m "type" = .ok t) (htr : inTransTypes t = false)
    (hid : pyGetItem m "id" = Except.error .keyError) :
    process routes popd (.inr m) (some w) = ([], some .keyError) := by
  show processMsg routes popd m (some w) = ([], some .keyError)
  unfold processMsg transport
  rw [ht]
  simp only [htr, Bool.false_eq_true, if_false, hid]

/-- Witness for C9: a chat message without an id. -/
theorem C9_missing_id_keyerror_witness :
    process [] (fun _ _ => none) (.inr (.obj [("type", .str "chat")]))
        (some ⟨"u1"⟩) = ([], some .keyError) :=
  C9_missing_id_keyerror [] (fun _ _ => none) (.obj [("type", .str "chat")])
    ⟨"u1"⟩ (.str "chat") rfl rfl rfl

/-- C10: the best-effort listener never inspects popped values — with the
closed flag down every popped frame is written verbatim, the close
sentinel posted by del_socket included; it exits exactly when the flag is
observed up, discarding any popped value; and del_socket left-pushes the
sentinel onto the connection's own channel. -/
theorem C10_best_effort_listener_blind :
    (∀ v, listen_step true v = .exit) ∧
    (∀ s, listen_step false (some s) = .write s) ∧
    listen_step false none = .idle ∧
    listen_step false (some CLOSE_COMMAND) = .write CLOSE_COMMAND ∧
    (∀ c v, listen_step c v = .exit ↔ c = true) ∧
    (∀ st ch, (del_socket_queue ch st) ch = CLOSE_COMMAND :: st ch) := by
  refine ⟨fun v => rfl, fun s => rfl, rfl, rfl, ?_, ?_⟩
  · intro c v
    cases c with
    | true => simp [listen_step]
    | false => cases v <;> simp [listen_step]
  · intro st ch
    simp [del_socket_queue, put_message_be, lpushK, updateK]

/-- C4: reliable put_message per destination channel: a dict bearing an
id has its frame and from-channel-or-empty RPUSHed onto channel:id and
the key LPUSHed onto the channel; a dict without an id has its raw frame
LPUSHed; a plain string is LPUSHed as is; and the channel list is
processed left to right. -/
theorem C4_put_message_reliable (st : RState) (ch : String) (chs : List String)
    (message : QMsg) (fromCh : Option String) :
    (put_message_rel (ch :: chs) message fromCh st
        = put_message_rel chs message fromCh (put_one message fromCh st ch)) ∧
    (∀ fields idv, message = .dict fields → getField fields "id" = some idv →
      (put_one message fromCh st ch) (ch ++ ":" ++ pyStr idv)
          = st (ch ++ ":" ++ pyStr idv)
            ++ [dump_message (.obj fields), fromCh.getD ""] ∧
      (put_one message fromCh st ch) ch = (ch ++ ":" ++ pyStr idv) :: st ch ∧
      (∀ k, k ≠ ch ++ ":" ++ pyStr idv → k ≠ ch →
        (put_one message fromCh st ch) k = st k)) ∧
    (∀ fields, message = .dict fields → getField fields "id" = none →
      (put_one message fromCh st ch) ch = dump_message (.obj fields) :: st ch ∧
      (∀ k, k ≠ ch → (put_one message fromCh st ch) k = st k)) ∧
    (∀ s, message = .str s →
      (put_one message fromCh st ch) ch = s :: st ch ∧
      (∀ k, k ≠ ch → (put_one message fromCh st ch) k = st k)) := by
  refine ⟨rfl, ?_, ?_, ?_⟩
  · intro fields idv hm hid
    subst hm
    have hne : dump_message (.obj fields) ≠ "" := dump_obj_ne_empty fields
    have hkc : ch ++ ":" ++ pyStr idv ≠ ch := append_colon_ne ch (pyStr idv)
    unfold put_one
    simp only [hid, if_neg hne]
    refine ⟨?_, ?_, ?_⟩
    · simp [lpushK, rpush2K, updateK, hkc]
    · simp [lpushK, rpush2K, updateK, Ne.symm hkc, hkc]
    · intro k hk1 hk2
      simp [lpushK, rpush2K, updateK, hk1, hk2]
  · intro fields hm hid
    subst hm
    unfold put_one
    simp only [hid]
    refine ⟨by simp [lpushK, updateK], ?_⟩
    intro k hk
    simp [lpushK, updateK, hk]
  · intro s hm
    subst hm
    unfold put_one
    refine ⟨by simp [lpushK, updateK], ?_⟩
    intro k hk
    simp [lpushK, updateK, hk]

/-- Witness for C4 on a concrete state and message. -/
theorem C4_put_message_reliable_witness :
    (put_one (.dict [("id", .str "x"), ("type", .str "chat")]) (some "u1")
        (fun _ => []) "u2") ("u2" ++ ":" ++ pyStr (.str "x"))
      = [dump_message (.obj [("id", .str "x"), ("type", .str "chat")]), "u1"] :=
  ((C4_put_message_reliable (fun _ => []) "u2" []
      (.dict [("id", .str "x"), ("type", .str "chat")]) (some "u1")).2.1
    [("id", .str "x"), ("type", .str "chat")] (.str "x") rfl rfl).1

/-- C7, counterexample: for the data message with the empty-string id,
the type-100 reply written to the connection has no data field at all
(make_message drops falsy arguments), so its data does not equal the
message id. -/
theorem C7_counterexample :
    pyGetItem (.obj [("id", .str ""), ("type", .str "chat")]) "id"
        = .ok (.str "") ∧
    inTransTypes (.str "chat") = false ∧
    (process [] (fun _ _ => none)
        (.inr (.obj [("id", .str ""), ("type", .str "chat")])) (some ⟨"u1"⟩)).1
      = [Event.write (.obj [("type", .num 100)])] ∧
    pyGetItem (.obj [("type", .num 100)]) "data" = .error .keyError :=
  ⟨rfl, rfl, rfl, rfl⟩

/-- C7, amended: on a data message carrying an id, the first event of the
process call — before any route invocation or enqueue — is the write of a
type-100 message to the connection; that message's data field equals the
id when the id is truthy and is absent when the id is falsy (empty
string, zero, null ...). -/
theorem C7_gotit_write_first (routes : List (JValue → RouteResult))
    (popd : String → JValue → Option (JValue × String)) (m : JValue) (w : Conn)
    (t i : JValue) (ht : pyGetItem m "type" = .ok t)
    (htr : inTransTypes t = false) (hid : pyGetItem m "id" = .ok i) :
    (process routes popd (.inr m) (some w)).1.head?
      = some (.write (make_message none (some (.num TRANS_SERV_GOT_IT)) none none
          none none (some i))) ∧
    pyGetItem (make_message none (some (.num TRANS_SERV_GOT_IT)) none none
        none none (some i)) "type" = .ok (.num 100) ∧
    pyGetItem (make_message none (some (.num TRANS_SERV_GOT_IT)) none none
        none none (some i)) "data"
      = (if truthy i then .ok i else .error .keyError) := by
  refine ⟨?_, ?_, ?_⟩
  · show (processMsg routes popd m (some w)).1.head? = _
    unfold processMsg transport
    rw [ht]
    simp only [htr, Bool.false_eq_true, if_false, hid]
    unfold dataPhase
    simp
  · by_cases h : truthy i <;>
      simp [make_message, addIf, pyGetItem, getField, h, List.lookup,
        TRANS_SERV_GOT_IT, show truthy (.num TRANS_SERV_GOT_IT) = true from rfl]
  · by_cases h : truthy i <;>
      simp [make_message, addIf, pyGetItem, getField, h, List.lookup,
        TRANS_SERV_GOT_IT, show truthy (.num TRANS_SERV_GOT_IT) = true from rfl]

/-- Witness for C7 with a truthy id. -/
theorem C7_gotit_write_first_witness :
    (process [] (fun _ _ => none)
        (.inr (.obj [("id", .str "x"), ("type", .str "chat")])) (some ⟨"u1"⟩)).1.head?
      = some (.write (make_message none (some (.num TRANS_SERV_GOT_IT)) none none
          none none (some (.str "x")))) :=
  (C7_gotit_write_first [] (fun _ _ => none)
    (.obj [("id", .str "x"), ("type", .str "chat")]) ⟨"u1"⟩
    (.str "chat") (.str "x") rfl rfl rfl).1

/-- processMsg on a transport-typed message stops after the transport
layer (the source returns right after the transport call). -/
theorem processMsg_trans (routes : List (JValue → RouteResult))
    (popd : String → JValue → Option (JValue × String)) (m : JValue) (w : Conn)
    (t : JValue) (ht : pyGetItem m "type" = .ok t) (htr : inTransTypes t = true) :
    processMsg routes popd m (some w) = transport popd m w := by
  unfold processMsg
  cases he : transport popd m w with
  | mk ev err =>
    cases err with
    | some e => simp [he]
    | none => simp [he, ht, htr]

/-- The type field of the type-300 delivery notification. -/
theorem pyGetItem_notify_type (dmid : JValue) :
    pyGetItem (make_message none (some (.num TRANS_DELIVERED)) none none none none
      (some dmid)) "type" = .ok (.num 300) := by
  by_cases h : truthy dmid <;>
    simp [make_message, addIf, pyGetItem, getField, h, List.lookup,
      TRANS_DELIVERED, show truthy (.num TRANS_DELIVERED) = true from rfl]

theorem jIsNum_eq {t : JValue} {n : Int} (h : jIsNum t n = true) : t = .num n := by
  cases t with
  | num k => simp [jIsNum] at h; rw [h]
  | null => simp [jIsNum] at h
  | bool b => simp [jIsNum] at h
  | str s => simp [jIsNum] at h
  | arr xs => simp [jIsNum] at h
  | obj fs => simp [jIsNum] at h

/-- C1, counterexample: a message of type 1000 (which the claim counts
among the transport codes) is routed — the first route's process is
invoked — because TRANS_TYPES in the source holds only the five codes
1001, 1002, 100, 200, 300. -/
theorem C1_counterexample :
    pyGetItem (.obj [("type", .num 1000), ("id", .str "x")]) "type"
        = .ok (.num 1000) ∧
    Event.routeCall 0 ∈
      (process [fun _ => .chan "a"] (fun _ _ => none)
        (.inr (.obj [("type", .num 1000), ("id", .str "x")])) (some ⟨"u1"⟩)).1 := by
  refine ⟨rfl, ?_⟩
  have h : (process [fun _ => .chan "a"] (fun _ _ => none)
      (.inr (.obj [("type", .num 1000), ("id", .str "x")])) (some ⟨"u1"⟩)).1
      = [.write (.obj [("type", .num 100), ("data", .str "x")]),
         .routeCall 0,
         .put ["a"] (.obj [("type", .num 1000), ("id", .str "x")]) (some "u1"),
         .spawnPost 0 "a"] := rfl
  rw [h]
  simp

/-- C1, amended: process with a connection dispatches on the five-code
tuple TRANS_TYPES = (1001, 1002, 100, 200, 300): for those types no route
is invoked and the message itself is never enqueued (a type-200 ack may
enqueue a fresh type-300 notification, which is a different message);
for any other type value — 1000 included — carrying an id, the route
chain is walked. -/
theorem C1_transport_dispatch (routes : List (JValue → RouteResult))
    (popd : String → JValue → Option (JValue × String)) (m : JValue) (w : Conn)
    (t : JValue) (ht : pyGetItem m "type" = .ok t) :
    (inTransTypes t = true →
      (∀ i, Event.routeCall i ∉ (process routes popd (.inr m) (some w)).1) ∧
      (∀ chs f, Event.put chs m f ∉ (process routes popd (.inr m) (some w)).1)) ∧
    (inTransTypes t = false →
      ∀ i0, pyGetItem m "id" = .ok i0 → routes ≠ [] →
        Event.routeCall 0 ∈ (process routes popd (.inr m) (some w)).1) := by
  constructor
  · intro htr
    rw [show process routes popd (.inr m) (some w)
        = processMsg routes popd m (some w) from rfl]
    rw [processMsg_trans routes popd m w t ht htr]
    unfold transport
    rw [ht]
    simp only [htr, eq_self_iff_true, if_true]
    cases hj1 : jIsNum t TRANS_PING with
    | true =>
      simp only [hj1, eq_self_iff_true, if_true]
      exact ⟨fun i hi => by simp at hi, fun chs f hf => by simp at hf⟩
    | false =>
      simp only [hj1, Bool.false_eq_true, if_false]
      cases hj2 : jIsNum t TRANS_RECV_GOT_IT with
      | false =>
        simp only [hj2, Bool.false_eq_true, if_false]
        exact ⟨fun i hi => by simp at hi, fun chs f hf => by simp at hf⟩
      | true =>
        simp only [hj2, eq_self_iff_true, if_true]
        cases hd : pyGetItem m "data" with
        | error e =>
          simp only [hd]
          exact ⟨fun i hi => by simp at hi, fun chs f hf => by simp at hf⟩
        | ok mid =>
          simp only [hd]
          cases hp : popd w.channel mid with
          | none =>
            simp only [hp]
            exact ⟨fun i hi => by simp at hi, fun chs f hf => by simp at hf⟩
          | some pr =>
            obtain ⟨dm, fc⟩ := pr
            simp only [hp]
            cases hdm : pyGetItem dm "id" with
            | error e =>
              simp only [hdm]
              exact ⟨fun i hi => by simp at hi, fun chs f hf => by simp at hf⟩
            | ok dmid =>
              simp only [hdm]
              constructor
              · intro i hi; simp at hi
              · intro chs f hf
                simp only [List.mem_cons, List.not_mem_nil, or_false] at hf
                rcases hf with hf | hf
                · exact absurd hf (by simp)
                · have hm : m = make_message none (some (.num TRANS_DELIVERED))
                      none none none none (some dmid) := by
                    injection hf with h1 h2 h3
                  have h2 := pyGetItem_notify_type dmid
                  rw [← hm, ht] at h2
                  have h3 := jIsNum_eq hj2
                  rw [h3] at h2
                  injection h2 with h4
                  injection h4 with h5
                  exact absurd h5 (by decide)
  · intro htr i0 hi0 hroutes
    show Event.routeCall 0 ∈ (processMsg routes popd m (some w)).1
    unfold processMsg transport
    simp only [ht, htr, Bool.false_eq_true, if_false, hi0]
    unfold dataPhase
    cases routes with
    | nil => exact absurd rfl hroutes
    | cons r rs =>
      cases hr : r m <;> simp [walkRoutes, hr]

/-- Witness for C1 on a concrete ping message (transport side) and a
concrete chat message (data side). -/
theorem C1_transport_dispatch_witness :
    (Event.routeCall 0 ∉
      (process [fun _ => .chan "a"] (fun _ _ => none)
        (.inr (.obj [("type", .num 1001)])) (some ⟨"u1"⟩)).1) ∧
    Event.routeCall 0 ∈
      (process [fun _ => .chan "a"] (fun _ _ => none)
        (.inr (.obj [("type", .str "chat"), ("id", .str "x")])) (some ⟨"u1"⟩)).1 :=
  ⟨((C1_transport_dispatch [fun _ => .chan "a"] (fun _ _ => none)
      (.obj [("type", .num 1001)]) ⟨"u1"⟩ (.num 1001) rfl).1 rfl).1 0,
   (C1_transport_dispatch [fun _ => .chan "a"] (fun _ _ => none)
      (.obj [("type", .str "chat"), ("id", .str "x")]) ⟨"u1"⟩ (.str "chat") rfl).2
      rfl (.str "x") rfl (by simp)⟩

/-- Characterisation of the route walk when a halting route sits after a
halt-free prefix: the invoked routes are exactly the prefix and the
halting route, and the collected channels are exactly the prefix's
nominations in order. -/
theorem walkRoutes_halt (m : JValue) (r : JValue → RouteResult)
    (post : List (JValue → RouteResult)) (hr : r m = .halt) :
    ∀ (pre : List (JValue → RouteResult)) (i : Nat),
      (∀ r2 ∈ pre, r2 m ≠ .halt) →
      (∀ e, e ∈ (walkRoutes (pre ++ r :: post) i m).1 ↔
        ∃ j, e = Event.routeCall (i + j) ∧ j ≤ pre.length) ∧
      (walkRoutes (pre ++ r :: post) i m).2.map (fun d => d.2)
        = pre.filterMap
            (fun r2 => match r2 m with | .chan c => some c | _ => none) := by
  intro pre
  induction pre with
  | nil =>
    intro i _
    constructor
    · intro e
      rw [show walkRoutes ([] ++ r :: post) i m = ([.routeCall i], []) by
        simp [walkRoutes, hr]]
      constructor
      · intro he
        simp at he
        exact ⟨0, by simp [he]⟩
      · rintro ⟨j, hj, hjle⟩
        have : j = 0 := by simpa using hjle
        subst this
        simp [hj]
    · rw [show walkRoutes ([] ++ r :: post) i m = ([.routeCall i], []) by
        simp [walkRoutes, hr]]
      simp
  | cons r2 rs ih =>
    intro i hpre
    have h2 := hpre r2 (by simp)
    have ihx := ih (i + 1) (fun r3 h3 => hpre r3 (by simp [h3]))
    cases hrr : r2 m with
    | halt => exact absurd hrr h2
    | chan c =>
      have hw : walkRoutes ((r2 :: rs) ++ r :: post) i m
          = (.routeCall i :: (walkRoutes (rs ++ r :: post) (i + 1) m).1,
             (i, c) :: (walkRoutes (rs ++ r :: post) (i + 1) m).2) := by
        show walkRoutes (r2 :: (rs ++ r :: post)) i m = _
        rw [walkRoutes]
        rw [hrr]
      constructor
      · intro e
        rw [hw]
        simp only [List.mem_cons]
        constructor
        · intro he
          rcases he with he | he
          · exact ⟨0, by simp [he]⟩
          · obtain ⟨j, hj, hjle⟩ := (ihx.1 e).mp he
            refine ⟨j + 1, ?_, by simp; omega⟩
            rw [hj]
            congr 1
            omega
        · rintro ⟨j, hj, hjle⟩
          cases j with
          | zero => exact Or.inl (by simp [hj])
          | succ j2 =>
            refine Or.inr ((ihx.1 e).mpr ⟨j2, ?_, by simp at hjle; omega⟩)
            rw [hj]
            congr 1
            omega
      · rw [hw]
        simp only [List.map_cons, List.filterMap_cons, hrr]
        rw [ihx.2]
    | skip =>
      have hw : walkRoutes ((r2 :: rs) ++ r :: post) i m
          = (.routeCall i :: (walkRoutes (rs ++ r :: post) (i + 1) m).1,
             (walkRoutes (rs ++ r :: post) (i + 1) m).2) := by
        show walkRoutes (r2 :: (rs ++ r :: post)) i m = _
        rw [walkRoutes]
        rw [hrr]
      constructor
      · intro e
        rw [hw]
        simp only [List.mem_cons]
        constructor
        · intro he
          rcases he with he | he
          · exact ⟨0, by simp [he]⟩
          · obtain ⟨j, hj, hjle⟩ := (ihx.1 e).mp he
            refine ⟨j + 1, ?_, by simp; omega⟩
            rw [hj]
            congr 1
            omega
        · rintro ⟨j, hj, hjle⟩
          cases j with
          | zero => exact Or.inl (by simp [hj])
          | succ j2 =>
            refine Or.inr ((ihx.1 e).mpr ⟨j2, ?_, by simp at hjle; omega⟩)
            rw [hj]
            congr 1
            omega
      · rw [hw]
        simp only [List.filterMap_cons, hrr]
        rw [ihx.2]

/-- C2, counterexample: with a first route nominating channel a and a
second route returning Stop, the queue is called — put_message receives
the message with destination list [a] — although a route in the chain
returned Stop. -/
theorem C2_counterexample :
    ((fun _ => RouteResult.halt) : JValue → RouteResult)
        (.obj [("type", .str "chat")]) = .halt ∧
    Event.put ["a"] (.obj [("type", .str "chat")]) none ∈
      (process [fun _ => .chan "a", fun _ => .halt] (fun _ _ => none)
        (.inr (.obj [("type", .str "chat")])) none).1 := by
  refine ⟨rfl, ?_⟩
  have h : (process [fun _ => .chan "a", fun _ => .halt] (fun _ _ => none)
      (.inr (.obj [("type", .str "chat")])) none).1
      = [.routeCall 0, .routeCall 1,
         .put ["a"] (.obj [("type", .str "chat")]) none,
         .spawnPost 0 "a"] := rfl
  rw [h]
  simp

/-- C2, amended: when a route returns Stop after a halt-free prefix, the
chain halts there — no later route is invoked, the stopping route is the
last one invoked — but channels nominated by earlier routes are still
enqueued: put_message is skipped exactly when the prefix nominated no
channel, and otherwise receives exactly the prefix's nominations. -/
theorem C2_stop_routing (pre : List (JValue → RouteResult))
    (r : JValue → RouteResult) (post : List (JValue → RouteResult))
    (m : JValue) (popd : String → JValue → Option (JValue × String))
    (hr : r m = .halt) (hpre : ∀ r2 ∈ pre, r2 m ≠ .halt) :
    (∀ i, pre.length < i →
      Event.routeCall i ∉ (process (pre ++ r :: post) popd (.inr m) none).1) ∧
    Event.routeCall pre.length ∈ (process (pre ++ r :: post) popd (.inr m) none).1 ∧
    (pre.filterMap (fun r2 => match r2 m with | .chan c => some c | _ => none) = [] →
      ∀ chs f, Event.put chs m f ∉ (process (pre ++ r :: post) popd (.inr m) none).1) ∧
    (pre.filterMap (fun r2 => match r2 m with | .chan c => some c | _ => none) ≠ [] →
      Event.put
          (pre.filterMap (fun r2 => match r2 m with | .chan c => some c | _ => none))
          m none
        ∈ (process (pre ++ r :: post) popd (.inr m) none).1) := by
  have hwalk := walkRoutes_halt m r post hr pre 0 hpre
  have hproc : process (pre ++ r :: post) popd (.inr m) none
      = dataPhase (pre ++ r :: post) m none [] := rfl
  rw [hproc]
  unfold dataPhase
  set p := walkRoutes (pre ++ r :: post) 0 m with hp
  refine ⟨?_, ?_, ?_, ?_⟩
  · intro i hi hmem
    simp only [List.nil_append, List.mem_append] at hmem
    rcases hmem with (hmem | hmem) | hmem
    · obtain ⟨j, hj, hjle⟩ := (hwalk.1 _).mp hmem
      injection hj with hj2
      omega
    · by_cases hd : p.2.isEmpty <;> simp [hd] at hmem
    · simp at hmem
  · have := (hwalk.1 (Event.routeCall pre.length)).mpr ⟨pre.length, by simp, le_refl _⟩
    simp only [List.nil_append, List.mem_append]
    exact Or.inl (Or.inl this)
  · intro hnil chs f hmem
    have hd : p.2 = [] := by
      have := hwalk.2
      rw [hnil] at this
      exact List.map_eq_nil_iff.mp this
    simp only [List.nil_append, List.mem_append] at hmem
    rcases hmem with (hmem | hmem) | hmem
    · obtain ⟨j, hj, _⟩ := (hwalk.1 _).mp hmem
      exact absurd hj (by simp)
    · simp [hd] at hmem
    · simp [hd] at hmem
  · intro hne
    have hd : ¬p.2.isEmpty := by
      intro hx
      rw [List.isEmpty_iff] at hx
      rw [← hwalk.2, hx] at hne
      simp at hne
    rw [Bool.not_eq_true] at hd
    simp only [List.nil_append, List.mem_append]
    refine Or.inl (Or.inr ?_)
    simp only [hd, Bool.false_eq_true, if_false]
    rw [← hwalk.2]
    simp

/-- Witness for C2 with one nominating route before the stopping one. -/
theorem C2_stop_routing_witness :
    Event.routeCall 1 ∈
      (process ([fun _ => .chan "a"] ++ (fun _ => RouteResult.halt) :: [])
        (fun _ _ => none) (.inr (.obj [("type", .str "chat")])) none).1 :=
  (C2_stop_routing [fun _ => .chan "a"] (fun _ => RouteResult.halt) []
    (.obj [("type", .str "chat")]) (fun _ _ => none) rfl
    (by intro r2 h2; simp at h2; subst h2; simp)).2.1

theorem string_append_assoc (a b c : String) : a ++ b ++ c = a ++ (b ++ c) := by
  cases a with
  | mk da =>
    cases b with
    | mk db =>
      cases c with
      | mk dc => exact congrArg String.mk (List.append_assoc da db dc)

theorem append_colon_inj (ch a b : String) (h : ch ++ ":" ++ a = ch ++ ":" ++ b) :
    a = b := by
  have h3 : a.data = b.data := by
    have hd := congrArg String.data h
    simp only [string_data_append, List.append_assoc] at hd
    exact List.append_cancel_left (List.append_cancel_left hd)
  cases a with
  | mk da =>
    cases b with
    | mk db => exact congrArg String.mk h3

/-- C5, counterexample: an ack that observes a half-drained record — the
message list holds the single leftover element "u1", the from-channel of
a concurrent ack's first pop — raises a decode error (json.loads on
"u1") instead of returning nothing. -/
theorem C5_counterexample :
    llenK (fun k => if k = "u2:x" then ["u1"] else []) "u2:x" = 1 ∧
    (pop_delivered "u2" "x" (fun k => if k = "u2:x" then ["u1"] else [])).2
      = .error .valueError :=
  ⟨rfl, rfl⟩

/-- C5, amended: pop_delivered left-pops two values off channel:id,
removes one occurrence of the key from channel:wait, and returns the
decoded pair exactly when the first pop yielded a nonempty frame that
parses and a second value was present; an empty record or an empty-string
first element is treated as late and returns nothing; but a half-drained
record whose remaining element is a nonempty string fails with a decode
error (ValueError on a non-JSON remainder, else AttributeError on the
missing from-channel) rather than returning nothing. -/
theorem C5_pop_delivered_spec (channel message_id : String) (st : RState)
    (hmw : message_id ≠ "wait") :
    ((pop_delivered channel message_id st).1 (channel ++ ":" ++ message_id)
        = (st (channel ++ ":" ++ message_id)).drop 2) ∧
    ((pop_delivered channel message_id st).1 (channel ++ ":wait")
        = (st (channel ++ ":wait")).erase (channel ++ ":" ++ message_id)) ∧
    (∀ k, k ≠ channel ++ ":" ++ message_id → k ≠ channel ++ ":wait" →
      (pop_delivered channel message_id st).1 k = st k) ∧
    ((st (channel ++ ":" ++ message_id)).head? = none →
      (pop_delivered channel message_id st).2 = .ok none) ∧
    ((st (channel ++ ":" ++ message_id)).head? = some "" →
      (pop_delivered channel message_id st).2 = .ok none) ∧
    (∀ raw, (st (channel ++ ":" ++ message_id)).head? = some raw → raw ≠ "" →
      (load_message raw = none →
        (pop_delivered channel message_id st).2 = .error .valueError) ∧
      (∀ msg, load_message raw = some msg →
        ((st (channel ++ ":" ++ message_id)).length = 1 →
          (pop_delivered channel message_id st).2 = .error .attributeError) ∧
        (∀ fc rest2, st (channel ++ ":" ++ message_id) = raw :: fc :: rest2 →
          (pop_delivered channel message_id st).2 = .ok (some (msg, fc))))) := by
  have hkw : channel ++ ":" ++ message_id ≠ channel ++ ":wait" := by
    intro h
    have h2 : channel ++ ":wait" = channel ++ ":" ++ "wait" :=
      (string_append_assoc channel ":" "wait").symm
    rw [h2] at h
    exact hmw (append_colon_inj channel message_id "wait" h)
  cases hst : st (channel ++ ":" ++ message_id) with
  | nil =>
    have hp : pop_delivered channel message_id st
        = (lremFirst st (channel ++ ":wait") (channel ++ ":" ++ message_id),
           .ok none) := by
      unfold pop_delivered lpopK
      simp only [hst]
    rw [hp]
    refine ⟨?_, ?_, ?_, ?_, ?_, ?_⟩
    · simp [lremFirst, updateK, hkw, hst]
    · simp [lremFirst, updateK]
    · intro k _ hk2
      simp [lremFirst, updateK, hk2]
    · intro _; rfl
    · intro h; simp at h
    · intro raw h; simp at h
  | cons a rest1 =>
    cases rest1 with
    | nil =>
      have hp1 : lpopK st (channel ++ ":" ++ message_id)
          = (some a, updateK st (channel ++ ":" ++ message_id) []) := by
        unfold lpopK
        simp only [hst]
      have hst1 : (updateK st (channel ++ ":" ++ message_id) [])
          (channel ++ ":" ++ message_id) = [] := by simp [updateK]
      have hp2 : lpopK (updateK st (channel ++ ":" ++ message_id) [])
            (channel ++ ":" ++ message_id)
          = (none, updateK st (channel ++ ":" ++ message_id) []) := by
        unfold lpopK
        simp only [hst1]
      have hp : pop_delivered channel message_id st
          = (lremFirst (updateK st (channel ++ ":" ++ message_id) [])
              (channel ++ ":wait") (channel ++ ":" ++ message_id),
             if a = "" then .ok none
             else match load_message a with
               | none => .error .valueError
               | some _ => .error .attributeError) := by
        simp only [pop_delivered, hp1, hp2]
        by_cases ha : a = ""
        · simp [ha]
        · simp only [if_neg ha]
          cases load_message a <;> simp
      rw [hp]
      refine ⟨?_, ?_, ?_, ?_, ?_, ?_⟩
      · simp [lremFirst, updateK, hkw, hst]
      · simp [lremFirst, updateK, Ne.symm hkw, hkw]
      · intro k hk1 hk2
        simp [lremFirst, updateK, hk1, hk2]
      · intro h; simp at h
      · intro h
        simp only [List.head?_cons, Option.some.injEq] at h
        simp [h]
      · intro raw h hne
        simp only [List.head?_cons, Option.some.injEq] at h
        subst h
        rw [if_neg hne]
        constructor
        · intro hl; rw [hl]
        · intro msg hl
          rw [hl]
          constructor
          · intro _; rfl
          · intro fc rest2 habs
            simp at habs
    | cons b rest2 =>
      have hp1 : lpopK st (channel ++ ":" ++ message_id)
          = (some a, updateK st (channel ++ ":" ++ message_id) (b :: rest2)) := by
        unfold lpopK
        simp only [hst]
      have hst1 : (updateK st (channel ++ ":" ++ message_id) (b :: rest2))
          (channel ++ ":" ++ message_id) = b :: rest2 := by simp [updateK]
      have hp2 : lpopK (updateK st (channel ++ ":" ++ message_id) (b :: rest2))
            (channel ++ ":" ++ message_id)
          = (some b, updateK st (channel ++ ":" ++ message_id) rest2) := by
        unfold lpopK
        simp only [hst1]
        have : updateK (updateK st (channel ++ ":" ++ message_id) (b :: rest2))
            (channel ++ ":" ++ message_id) rest2
            = updateK st (channel ++ ":" ++ message_id) rest2 := by
          funext k
          by_cases hk : k = channel ++ ":" ++ message_id <;> simp [updateK, hk]
        rw [this]
      have hp : pop_delivered channel message_id st
          = (lremFirst (updateK st (channel ++ ":" ++ message_id) rest2)
              (channel ++ ":wait") (channel ++ ":" ++ message_id),
             if a = "" then .ok none
             else match load_message a with
               | none => .error .valueError
               | some msg => .ok (some (msg, b))) := by
        simp only [pop_delivered, hp1, hp2]
        by_cases ha : a = ""
        · simp [ha]
        · simp only [if_neg ha]
          cases load_message a <;> simp
      rw [hp]
      refine ⟨?_, ?_, ?_, ?_, ?_, ?_⟩
      · simp [lremFirst, updateK, hkw, hst]
      · simp [lremFirst, updateK, Ne.symm hkw, hkw]
      · intro k hk1 hk2
        simp [lremFirst, updateK, hk1, hk2]
      · intro h; simp at h
      · intro h
        simp only [List.head?_cons, Option.some.injEq] at h
        simp [h]
      · intro raw h hne
        simp only [List.head?_cons, Option.some.injEq] at h
        subst h
        rw [if_neg hne]
        constructor
        · intro hl; rw [hl]
        · intro msg hl
          rw [hl]
          constructor
          · intro hlen; simp at hlen
          · intro fc rest3 hshape
            simp only [List.cons.injEq] at hshape
            rw [hshape.2.1]

/-- Witness for C5 on a concrete delivered record. -/
theorem C5_pop_delivered_spec_witness :
    (pop_delivered "u2" "x"
        (fun k => if k = "u2:x" then ["\x7b\"id\": \"x\"\x7d", "u1"]
          else if k = "u2:wait" then ["u2:x"] else [])).2
      = .ok (some (.obj [("id", .str "x")], "u1")) :=
  ((((C5_pop_delivered_spec "u2" "x"
      (fun k => if k = "u2:x" then ["\x7b\"id\": \"x\"\x7d", "u1"]
        else if k = "u2:wait" then ["u2:x"] else [])
      (by decide)).2.2.2.2.2 "\x7b\"id\": \"x\"\x7d" rfl (by decide)).2
    (.obj [("id", .str "x")]) rfl).2 "u1" [] rfl)

theorem send_wait_go_untouched (channel wq : String) :
    ∀ (es : List String) (st : RState) (acc : List String) (k : String), k ≠ wq →
      (send_wait_go channel wq es st acc).1 k = st k := by
  intro es
  induction es with
  | nil => intro st acc k _; rfl
  | cons e es ih =>
    intro st acc k hk
    by_cases hpre : pyStartsWith e channel
    · cases hx : lindex0 st e with
      | none =>
        rw [send_wait_go]
        simp only [hpre, if_true, hx]
        exact ih st acc k hk
      | some d =>
        rw [send_wait_go]
        simp only [hpre, if_true, hx]
        by_cases hd : d = ""
        · rw [if_pos hd]
          exact ih st acc k hk
        · rw [if_neg hd]
          exact ih st _ k hk
    · rw [send_wait_go]
      simp only [hpre, Bool.false_eq_true, if_false]
      rw [ih _ acc k hk]
      simp [lremFirst, updateK, hk]

theorem send_wait_go_count (channel wq : String) :
    ∀ (es : List String) (st : RState) (acc : List String) (v : String),
      ((send_wait_go channel wq es st acc).1 wq).count v
        = (st wq).count v - (if pyStartsWith v channel then 0 else es.count v) := by
  intro es
  induction es with
  | nil =>
    intro st acc v
    by_cases hv : pyStartsWith v channel <;> simp [send_wait_go, hv]
  | cons e es ih =>
    intro st acc v
    have hcnt : (e :: es).count v = es.count v + (if v = e then 1 else 0) := by
      by_cases hve : v = e <;> simp [List.count_cons, hve]
    by_cases hpre : pyStartsWith e channel
    · have hsame : ∀ acc2, ((send_wait_go channel wq (e :: es) st acc2).1 wq).count v
          = ((send_wait_go channel wq es st acc2).1 wq).count v ∨
          ∃ acc3, ((send_wait_go channel wq (e :: es) st acc2).1 wq).count v
            = ((send_wait_go channel wq es st acc3).1 wq).count v := by
        intro acc2
        cases hx : lindex0 st e with
        | none =>
          left
          rw [send_wait_go]
          simp only [hpre, if_true, hx]
        | some d =>
          by_cases hd : d = ""
          · left
            rw [send_wait_go]
            simp only [hpre, if_true, hx]
            rw [if_pos hd]
          · right
            refine ⟨acc2 ++ [d], ?_⟩
            rw [send_wait_go]
            simp only [hpre, if_true, hx]
            rw [if_neg hd]
      have hve2 : pyStartsWith v channel = false → (e :: es).count v = es.count v := by
        intro hv
        have hve : v ≠ e := by
          intro he
          rw [he] at hv
          rw [hv] at hpre
          exact absurd hpre (by decide)
        simp [hcnt, hve]
      rcases hsame acc with h | ⟨acc3, h⟩
      · rw [h, ih st acc v]
        by_cases hv : pyStartsWith v channel
        · simp [hv]
        · simp only [hv, Bool.false_eq_true, if_false,
            hve2 (by simpa using hv)]
      · rw [h, ih st acc3 v]
        by_cases hv : pyStartsWith v channel
        · simp [hv]
        · simp only [hv, Bool.false_eq_true, if_false,
            hve2 (by simpa using hv)]
    · rw [send_wait_go]
      simp only [hpre, Bool.false_eq_true, if_false]
      rw [ih _ acc v]
      have herase : ((lremFirst st wq e) wq).count v
          = (st wq).count v - (if v = e then 1 else 0) := by
        simp only [lremFirst, updateK, if_pos rfl]
        by_cases hv : v = e
        · subst hv; simp [List.count_erase_self]
        · simp [List.count_erase_of_ne hv, hv]
      rw [herase]
      by_cases hv : pyStartsWith v channel
      · have hve : v ≠ e := by
          intro he
          rw [he] at hv
          exact hpre hv
        simp only [hv, if_true, if_neg hve]
        omega
      · simp only [hv, Bool.false_eq_true, if_false, hcnt]
        by_cases hve : v = e
        · simp only [if_pos hve]
          omega
        · simp only [if_neg hve]
          omega

theorem send_wait_go_writes (channel wq : String) :
    ∀ (es : List String) (st2 st : RState) (acc : List String),
      (∀ k, k ≠ wq → st2 k = st k) → wq ∉ es →
      (send_wait_go channel wq es st2 acc).2
        = acc ++ es.filterMap (fun v =>
            if pyStartsWith v channel then
              match (st v).head? with
              | some d => if d = "" then none else some d
              | none => none
            else none) := by
  intro es
  induction es with
  | nil => intro st2 st acc _ _; simp [send_wait_go]
  | cons e es ih =>
    intro st2 st acc hrel hmem
    have hne : e ≠ wq := by
      intro h
      exact hmem (by simp [h])
    have hmem2 : wq ∉ es := fun h => hmem (by simp [h])
    by_cases hpre : pyStartsWith e channel
    · have hl : lindex0 st2 e = (st e).head? := by
        rw [show lindex0 st2 e = (st2 e).head? from rfl, hrel e hne]
      cases hx : lindex0 st2 e with
      | none =>
        have hh : (st e).head? = none := by rw [← hl]; exact hx
        rw [send_wait_go]
        simp only [hpre, if_true, hx]
        rw [ih st2 st acc hrel hmem2]
        simp [List.filterMap_cons, hpre, hh]
      | some d =>
        have hh : (st e).head? = some d := by rw [← hl]; exact hx
        rw [send_wait_go]
        simp only [hpre, if_true, hx]
        by_cases hd : d = ""
        · rw [if_pos hd, ih st2 st acc hrel hmem2]
          simp [List.filterMap_cons, hpre, hh, hd]
        · rw [if_neg hd, ih st2 st (acc ++ [d]) hrel hmem2]
          simp [List.filterMap_cons, hpre, hh, hd]
    · rw [send_wait_go]
      simp only [hpre, Bool.false_eq_true, if_false]
      have hrel2 : ∀ k, k ≠ wq → (lremFirst st2 wq e) k = st k := by
        intro k hk
        simp [lremFirst, updateK, hk, hrel k hk]
      rw [ih _ st acc hrel2 hmem2]
      simp [List.filterMap_cons, hpre]

/-- C6, counterexample: channel "u", wait queue ["ux"], stored list at
key "ux" is ["f"].  The entry "ux" is not prefixed with "u:" (the
claim's test), yet the code — which tests startswith("u"), the bare
channel — treats it as a message key: the frame "f" is written and the
entry stays in the wait queue, where the claim demands silent removal
and no write. -/
theorem C6_counterexample :
    pyStartsWith "ux" ("u" ++ ":") = false ∧
    (send_wait_queue "u"
        (fun k => if k = "u:wait" then ["ux"] else if k = "ux" then ["f"] else [])).2
      = ["f"] ∧
    (send_wait_queue "u"
        (fun k => if k = "u:wait" then ["ux"] else if k = "ux" then ["f"] else [])).1
      "u:wait" = ["ux"] :=
  ⟨rfl, rfl, rfl⟩

/-- C6, amended: the listener's wait-queue drain walks the snapshot from
the right (oldest first); every entry starting with the bare channel
string (the code tests startswith(channel), not channel + colon) has the
frame at index 0 of its key written when present and nonempty and keeps
its place in the wait queue; every other entry is removed from the wait
queue (one single-value LREM per occurrence, so all occurrences go) and
is never written; no other key is modified. -/
theorem C6_send_wait_queue_spec (channel : String) (st : RState) :
    (∀ k, k ≠ channel ++ ":wait" →
      (send_wait_queue channel st).1 k = st k) ∧
    (∀ v, pyStartsWith v channel = true →
      ((send_wait_queue channel st).1 (channel ++ ":wait")).count v
        = (st (channel ++ ":wait")).count v) ∧
    (∀ v, pyStartsWith v channel = false →
      ((send_wait_queue channel st).1 (channel ++ ":wait")).count v = 0) ∧
    (channel ++ ":wait" ∉ st (channel ++ ":wait") →
      (send_wait_queue channel st).2
        = (st (channel ++ ":wait")).reverse.filterMap (fun v =>
            if pyStartsWith v channel then
              match (st v).head? with
              | some d => if d = "" then none else some d
              | none => none
            else none)) := by
  refine ⟨?_, ?_, ?_, ?_⟩
  · intro k hk
    exact send_wait_go_untouched channel (channel ++ ":wait") _ st [] k hk
  · intro v hv
    have h := send_wait_go_count channel (channel ++ ":wait")
      (st (channel ++ ":wait")).reverse st [] v
    rw [hv] at h
    simpa using h
  · intro v hv
    have h := send_wait_go_count channel (channel ++ ":wait")
      (st (channel ++ ":wait")).reverse st [] v
    rw [hv] at h
    simp only [Bool.false_eq_true, if_false, List.count_reverse] at h
    simpa using h
  · intro hmem
    have h := send_wait_go_writes channel (channel ++ ":wait")
      (st (channel ++ ":wait")).reverse st st [] (fun _ _ => rfl)
      (by simpa using hmem)
    simpa using h

/-- Witness for C6: a kept message key with a stored frame and a removed
foreign entry. -/
theorem C6_send_wait_queue_spec_witness :
    ((send_wait_queue "u"
        (fun k => if k = "u:wait" then ["u:x", "zz"]
          else if k = "u:x" then ["F"] else [])).1 "u:wait").count "zz" = 0 :=
  (C6_send_wait_queue_spec "u"
      (fun k => if k = "u:wait" then ["u:x", "zz"]
        else if k = "u:x" then ["F"] else [])).2.2.1 "zz" rfl

/-! ## C3: the reliable-mode in-flight invariant -/

theorem pyStartsWith_iff (s pre : String) :
    pyStartsWith s pre = true ↔ pre.data <+: s.data :=
  List.isPrefixOf_iff_prefix

theorem data_append_colon (C x : String) :
    (C ++ ":" ++ x).data = C.data ++ ':' :: x.data := by
  simp [string_data_append]

theorem prefixC_of_prefixColon {k C : String}
    (h : pyStartsWith k (C ++ ":") = true) : pyStartsWith k C = true := by
  rw [pyStartsWith_iff] at h ⊢
  refine List.IsPrefix.trans ?_ h
  rw [string_data_append]
  exact List.prefix_append _ _

theorem prefixColon_len {k C : String} (h : pyStartsWith k (C ++ ":") = true) :
    C.data.length + 1 ≤ k.data.length := by
  rw [pyStartsWith_iff] at h
  have := h.length_le
  rw [string_data_append] at this
  simp only [List.length_append, List.length_cons, List.length_nil] at this
  omega

theorem ne_empty_data {C : String} (h : C ≠ "") : C.data ≠ [] := by
  intro hd
  apply h
  cases C with
  | mk d => exact congrArg String.mk hd

theorem prefixColon_ne_bang {k C : String} (h : pyStartsWith k (C ++ ":") = true)
    (hC : C ≠ "") : k ≠ "!" := by
  intro hk
  have h1 := prefixColon_len h
  have h2 := ne_empty_data hC
  have h3 : 1 ≤ C.data.length := by
    cases hd : C.data with
    | nil => exact absurd hd h2
    | cons a l => simp
  rw [hk] at h1
  have h4 : ("!" : String).data.length = 1 := rfl
  omega

theorem prefixColon_ne_channel {k C : String}
    (h : pyStartsWith k (C ++ ":") = true) : k ≠ C := by
  intro hk
  have h1 := prefixColon_len h
  rw [hk] at h1
  omega

theorem wait_eq_colon_append (C : String) :
    C ++ ":wait" = C ++ ":" ++ "wait" :=
  (string_append_assoc C ":" "wait").symm

theorem wait_ne_channel (C : String) : C ++ ":wait" ≠ C := by
  rw [wait_eq_colon_append]
  exact append_colon_ne C "wait"

theorem key_prefixColon (C x : String) :
    pyStartsWith (C ++ ":" ++ x) (C ++ ":") = true := by
  rw [pyStartsWith_iff, string_data_append, string_data_append]
  exact List.prefix_append _ _

theorem key_ne_wait {C x : String} (h : x ≠ "wait") :
    C ++ ":" ++ x ≠ C ++ ":wait" := by
  rw [wait_eq_colon_append]
  intro he
  exact h (append_colon_inj C x "wait" he)

theorem prefix_head {k C : String} (h : pyStartsWith k C = true)
    {c0 : Char} {cs : List Char} (hC : C.data = c0 :: cs) :
    k.data.head? = some c0 := by
  rw [pyStartsWith_iff] at h
  obtain ⟨t, ht⟩ := h
  rw [← ht, hC]
  rfl

theorem dump_obj_head (fields : List (String × JValue)) :
    (dump_message (.obj fields)).data.head? = some braceO := by
  cases fields <;> rfl

theorem prefixColon_ne_dump {k C : String} (fields : List (String × JValue))
    (h : pyStartsWith k (C ++ ":") = true) (hCne : C ≠ "")
    (hCb : ∀ c0 cs, C.data = c0 :: cs → c0 ≠ braceO) :
    k ≠ dump_message (.obj fields) := by
  intro hk
  obtain ⟨c0, cs, hC⟩ : ∃ c0 cs, C.data = c0 :: cs := by
    cases hd : C.data with
    | nil => exact absurd hd (ne_empty_data hCne)
    | cons a l => exact ⟨a, l, rfl⟩
  have h1 := prefix_head (prefixC_of_prefixColon h) hC
  rw [hk, dump_obj_head fields] at h1
  injection h1 with h2
  exact hCb c0 cs hC h2.symm

/-- Atomic transitions of the reliable queue on one channel C, at the
granularity of whole operations: enqueue of a message dict (whose id, if
any, does not collide with the wait-queue name), the close-sentinel
enqueue of del_socket, one main-loop iteration of the listener, the
subscribe-time wait-queue drain, and an acknowledgement targeting an
in-flight or already-drained message id. -/
inductive Reach (C : String) : RState → Prop where
  | init : Reach C (fun _ => [])
  | put (st : RState) (fields : List (String × JValue)) (fromCh : Option String)
      (hid : ∀ idv, getField fields "id" = some idv → pyStr idv ≠ "wait")
      (h : Reach C st) :
      Reach C (put_message_rel [C] (.dict fields) fromCh st)
  | putClose (st : RState) (h : Reach C st) :
      Reach C (put_message_rel [C] (.str CLOSE_COMMAND) none st)
  | step (st : RState) (h : Reach C st) :
      Reach C (listen_iter C st).1
  | drain (st : RState) (h : Reach C st) :
      Reach C (send_wait_queue C st).1
  | ack (st : RState) (mid : String) (hmw : mid ≠ "wait")
      (hg : (C ++ ":" ++ mid) ∈ st (C ++ ":wait") ∨ st (C ++ ":" ++ mid) = [])
      (h : Reach C st) :
      Reach C (pop_delivered C mid st).1

/-- The first component of pop_delivered is the same in every branch:
two left-pops on the message list followed by the wait-queue removal. -/
theorem pop_delivered_fst (channel mid : String) (st : RState) :
    (pop_delivered channel mid st).1
      = lremFirst (lpopK (lpopK st (channel ++ ":" ++ mid)).2
          (channel ++ ":" ++ mid)).2 (channel ++ ":wait")
          (channel ++ ":" ++ mid) := by
  simp only [pop_delivered]
  cases h1 : (lpopK st (channel ++ ":" ++ mid)).1 with
  | none => rfl
  | some raw =>
    by_cases hr : raw = ""
    · simp [hr]
    · simp only [if_neg hr]
      cases load_message raw with
      | none => rfl
      | some msg =>
        cases (lpopK (lpopK st (channel ++ ":" ++ mid)).2
            (channel ++ ":" ++ mid)).1 <;> rfl

/-- State effect of pop_delivered: two left-pops on the message list,
one first-occurrence removal on the wait queue, all else untouched. -/
theorem pop_delivered_state (channel mid : String) (st : RState)
    (hkw : channel ++ ":" ++ mid ≠ channel ++ ":wait") :
    (pop_delivered channel mid st).1 (channel ++ ":" ++ mid)
        = (st (channel ++ ":" ++ mid)).drop 2 ∧
    (pop_delivered channel mid st).1 (channel ++ ":wait")
        = (st (channel ++ ":wait")).erase (channel ++ ":" ++ mid) ∧
    ∀ k, k ≠ channel ++ ":" ++ mid → k ≠ channel ++ ":wait" →
      (pop_delivered channel mid st).1 k = st k := by
  rw [pop_delivered_fst]
  refine ⟨?_, ?_, ?_⟩
  · cases hk : st (channel ++ ":" ++ mid) with
    | nil => simp [lremFirst, lpopK, updateK, hkw, hk]
    | cons a t =>
      cases t with
      | nil => simp [lremFirst, lpopK, updateK, hkw, hk]
      | cons b r => simp [lremFirst, lpopK, updateK, hkw, hk]
  · cases hk : st (channel ++ ":" ++ mid) with
    | nil => simp [lremFirst, lpopK, updateK, Ne.symm hkw, hk]
    | cons a t =>
      cases t with
      | nil => simp [lremFirst, lpopK, updateK, Ne.symm hkw, hk]
      | cons b r => simp [lremFirst, lpopK, updateK, Ne.symm hkw, hk]
  · intro k hk1 hk2
    cases hk : st (channel ++ ":" ++ mid) with
    | nil => simp [lremFirst, lpopK, updateK, hk1, hk2, hk]
    | cons a t =>
      cases t with
      | nil => simp [lremFirst, lpopK, updateK, hk1, hk2, hk]
      | cons b r => simp [lremFirst, lpopK, updateK, hk1, hk2, hk]

theorem put_one_dict_id_state (st : RState) (C : String)
    (fields : List (String × JValue)) (idv : JValue) (fromCh : Option String)
    (hidv : getField fields "id" = some idv) :
    (put_one (.dict fields) fromCh st C) C = (C ++ ":" ++ pyStr idv) :: st C ∧
    (put_one (.dict fields) fromCh st C) (C ++ ":" ++ pyStr idv)
      = st (C ++ ":" ++ pyStr idv) ++ [dump_message (.obj fields), fromCh.getD ""] ∧
    ∀ k, k ≠ C → k ≠ C ++ ":" ++ pyStr idv →
      (put_one (.dict fields) fromCh st C) k = st k := by
  have hkc := append_colon_ne C (pyStr idv)
  simp only [put_one, hidv, if_neg (dump_obj_ne_empty fields)]
  refine ⟨?_, ?_, ?_⟩
  · simp [lpushK, rpush2K, updateK, Ne.symm hkc]
  · simp [lpushK, rpush2K, updateK, hkc]
  · intro k hk1 hk2
    simp [lpushK, rpush2K, updateK, hk1, hk2]

theorem put_one_dict_noid_state (st : RState) (C : String)
    (fields : List (String × JValue)) (fromCh : Option String)
    (hidv : getField fields "id" = none) :
    (put_one (.dict fields) fromCh st C) C = dump_message (.obj fields) :: st C ∧
    ∀ k, k ≠ C → (put_one (.dict fields) fromCh st C) k = st k := by
  simp only [put_one, hidv]
  refine ⟨by simp [lpushK, updateK], ?_⟩
  intro k hk
  simp [lpushK, updateK, hk]

theorem count_cons_split (k x : String) (l : List String) :
    (x :: l).count k = l.count k + (if k = x then 1 else 0) := by
  by_cases h : k = x <;> simp [List.count_cons, h]

/-- The per-key accounting invariant of the reliable queue: for every
message key k of channel C (k starts with "C:" and is not the wait-queue
name), twice the number of occurrences of k across the incoming list C
and the in-flight list C:wait equals the length of the list stored at k.
The channel name must be nonempty and must not start with the JSON
open-brace character (so that inline frames are never mistaken for
keys). -/
theorem reach_count_inv (C : String) (hCne : C ≠ "")
    (hCb : ∀ c0 cs, C.data = c0 :: cs → c0 ≠ braceO) :
    ∀ st, Reach C st → ∀ k, pyStartsWith k (C ++ ":") = true →
      k ≠ C ++ ":wait" →
      2 * ((st C).count k + (st (C ++ ":wait")).count k) = (st k).length := by
  intro st hr
  induction hr with
  | init => intro k _ _; simp
  | put st fields fromCh hid hrec ih =>
    intro k hpref hkw
    have hkC : k ≠ C := prefixColon_ne_channel hpref
    have hput : put_message_rel [C] (.dict fields) fromCh st
        = put_one (.dict fields) fromCh st C := rfl
    rw [hput]
    cases hidv : getField fields "id" with
    | none =>
      obtain ⟨h1, h2⟩ := put_one_dict_noid_state st C fields fromCh hidv
      rw [h1, h2 _ (wait_ne_channel C) , h2 k hkC, count_cons_split]
      rw [if_neg (prefixColon_ne_dump fields hpref hCne hCb)]
      simpa using ih k hpref hkw
    | some idv =>
      obtain ⟨h1, h2, h3⟩ := put_one_dict_id_state st C fields idv fromCh hidv
      have hkeyw : C ++ ":" ++ pyStr idv ≠ C ++ ":wait" :=
        key_ne_wait (hid idv hidv)
      by_cases hk : k = C ++ ":" ++ pyStr idv
      · subst hk
        rw [h1, h2, h3 _ (wait_ne_channel C) (Ne.symm hkeyw), count_cons_split, if_pos rfl]
        have := ih _ (key_prefixColon C (pyStr idv)) hkeyw
        simp only [List.length_append, List.length_cons, List.length_nil]
        omega
      · rw [h1, h3 _ (wait_ne_channel C) (Ne.symm hkeyw), h3 k hkC hk,
          count_cons_split, if_neg hk]
        simpa using ih k hpref hkw
  | putClose st hrec ih =>
    intro k hpref hkw
    have hkC : k ≠ C := prefixColon_ne_channel hpref
    have hput : put_message_rel [C] (.str CLOSE_COMMAND) none st
        = lpushK st C CLOSE_COMMAND := rfl
    rw [hput]
    have h1 : (lpushK st C CLOSE_COMMAND) C = CLOSE_COMMAND :: st C := by
      simp [lpushK, updateK]
    have h2 : ∀ k2, k2 ≠ C → (lpushK st C CLOSE_COMMAND) k2 = st k2 := by
      intro k2 hk2
      simp [lpushK, updateK, hk2]
    rw [h1, h2 _ (wait_ne_channel C), h2 k hkC, count_cons_split,
      if_neg (show k ≠ CLOSE_COMMAND from prefixColon_ne_bang hpref hCne)]
    simpa using ih k hpref hkw
  | step st hrec ih =>
    intro k hpref hkw
    have hkC : k ≠ C := prefixColon_ne_channel hpref
    have hCwq : C ≠ C ++ ":wait" := Ne.symm (wait_ne_channel C)
    cases hlast : (st C).getLast? with
    | none =>
      have hit : (listen_iter C st).1 = st := by
        simp only [listen_iter, brpoplpushK, hlast]
      rw [hit]
      exact ih k hpref hkw
    | some val =>
      have hsplit : (st C).dropLast ++ [val] = st C :=
        List.dropLast_append_getLast? val hlast
      have hb : brpoplpushK st C (C ++ ":wait")
          = (some val, lpushK (updateK st C (st C).dropLast) (C ++ ":wait") val) := by
        simp only [brpoplpushK, hlast]
      have hs1C : (lpushK (updateK st C (st C).dropLast) (C ++ ":wait") val) C
          = (st C).dropLast := by
        simp [lpushK, updateK, hCwq]
      have hs1W : (lpushK (updateK st C (st C).dropLast) (C ++ ":wait") val)
          (C ++ ":wait") = val :: st (C ++ ":wait") := by
        simp [lpushK, updateK, Ne.symm hCwq]
      have hs1k : ∀ k2, k2 ≠ C → k2 ≠ C ++ ":wait" →
          (lpushK (updateK st C (st C).dropLast) (C ++ ":wait") val) k2 = st k2 := by
        intro k2 h1 h2
        simp [lpushK, updateK, h1, h2]
      have hcountC : (st C).count k = ((st C).dropLast).count k
          + (if k = val then 1 else 0) := by
        conv_lhs => rw [← hsplit]
        rw [List.count_append]
        by_cases hkv : k = val <;> simp [hkv, List.count_cons]
      by_cases hval : val = CLOSE_COMMAND
      · have hit : (listen_iter C st).1
            = lremAll (lpushK (updateK st C (st C).dropLast) (C ++ ":wait") val)
                (C ++ ":wait") CLOSE_COMMAND := by
          simp only [listen_iter, hb, hval, if_pos rfl]
          rfl
        rw [hit]
        have hkb : k ≠ CLOSE_COMMAND := prefixColon_ne_bang hpref hCne
        have hWc : (lremAll (lpushK (updateK st C (st C).dropLast)
            (C ++ ":wait") val) (C ++ ":wait") CLOSE_COMMAND) (C ++ ":wait")
            = (val :: st (C ++ ":wait")).filter (fun x => !(x == CLOSE_COMMAND)) := by
          simp only [lremAll, updateK, if_pos rfl, hs1W]
          rfl
        have hothers : ∀ k2, k2 ≠ C ++ ":wait" →
            (lremAll (lpushK (updateK st C (st C).dropLast)
              (C ++ ":wait") val) (C ++ ":wait") CLOSE_COMMAND) k2
            = (lpushK (updateK st C (st C).dropLast) (C ++ ":wait") val) k2 := by
          intro k2 h2
          simp [lremAll, updateK, h2]
        have e1 : (lremAll (lpushK (updateK st C (st C).dropLast)
            (C ++ ":wait") val) (C ++ ":wait") CLOSE_COMMAND) C
            = (st C).dropLast := by
          rw [hothers C hCwq, hs1C]
        have e2 : (lremAll (lpushK (updateK st C (st C).dropLast)
            (C ++ ":wait") val) (C ++ ":wait") CLOSE_COMMAND) k = st k := by
          rw [hothers k hkw, hs1k k hkC hkw]
        have e3 : ((lremAll (lpushK (updateK st C (st C).dropLast)
            (C ++ ":wait") val) (C ++ ":wait") CLOSE_COMMAND)
            (C ++ ":wait")).count k = (st (C ++ ":wait")).count k := by
          rw [hWc, hval]
          rw [show (CLOSE_COMMAND :: st (C ++ ":wait")).filter
              (fun x => !(x == CLOSE_COMMAND))
              = (st (C ++ ":wait")).filter (fun x => !(x == CLOSE_COMMAND)) by
            simp [List.filter_cons]]
          exact List.count_filter (by simp [hkb])
        rw [e1, e2, e3]
        rw [if_neg (by rw [hval]; exact hkb)] at hcountC
        have := ih k hpref hkw
        omega
      · by_cases hpv : pyStartsWith val C = true
        · have hit : (listen_iter C st).1
              = lpushK (updateK st C (st C).dropLast) (C ++ ":wait") val := by
            simp only [listen_iter, hb, if_neg hval, hpv, eq_self_iff_true, if_true]
            cases hx : lindex0 (lpushK (updateK st C (st C).dropLast)
                (C ++ ":wait") val) val with
            | none => simp only [hx]
            | some d =>
              simp only [hx]
              by_cases hd : d = ""
              · simp only [if_pos hd]
              · simp only [if_neg hd]
          rw [hit]
          rw [hs1C, hs1W, hs1k k hkC hkw]
          rw [count_cons_split]
          have := ih k hpref hkw
          by_cases hkv : k = val
          · rw [if_pos hkv] at hcountC ⊢
            omega
          · rw [if_neg hkv] at hcountC ⊢
            omega
        · have hkv : k ≠ val := by
            intro he
            exact hpv (he ▸ prefixC_of_prefixColon hpref)
          have hit : (listen_iter C st).1
              = (lpopK (lpushK (updateK st C (st C).dropLast)
                  (C ++ ":wait") val) (C ++ ":wait")).2 := by
            simp only [listen_iter, hb, if_neg hval]
            rw [if_neg hpv]
          have hpop : (lpopK (lpushK (updateK st C (st C).dropLast)
                (C ++ ":wait") val) (C ++ ":wait")).2
              = updateK (lpushK (updateK st C (st C).dropLast)
                  (C ++ ":wait") val) (C ++ ":wait") (st (C ++ ":wait")) := by
            simp only [lpopK, hs1W]
          rw [hit, hpop]
          have f1 : updateK (lpushK (updateK st C (st C).dropLast)
              (C ++ ":wait") val) (C ++ ":wait") (st (C ++ ":wait")) C
              = (st C).dropLast := by
            simp only [updateK, if_neg hCwq]
            exact hs1C
          have f2 : updateK (lpushK (updateK st C (st C).dropLast)
              (C ++ ":wait") val) (C ++ ":wait") (st (C ++ ":wait"))
              (C ++ ":wait") = st (C ++ ":wait") := by
            simp [updateK]
          have f3 : updateK (lpushK (updateK st C (st C).dropLast)
              (C ++ ":wait") val) (C ++ ":wait") (st (C ++ ":wait")) k
              = st k := by
            simp only [updateK, if_neg hkw]
            exact hs1k k hkC hkw
          rw [f1, f2, f3]
          rw [if_neg hkv] at hcountC
          have := ih k hpref hkw
          omega
  | drain st hrec ih =>
    intro k hpref hkw
    have hCwq : C ≠ C ++ ":wait" := Ne.symm (wait_ne_channel C)
    have e1 : (send_wait_queue C st).1 C = st C :=
      send_wait_go_untouched C (C ++ ":wait") (st (C ++ ":wait")).reverse st [] C hCwq
    have e2 : (send_wait_queue C st).1 k = st k :=
      send_wait_go_untouched C (C ++ ":wait") (st (C ++ ":wait")).reverse st [] k hkw
    have e3 : ((send_wait_queue C st).1 (C ++ ":wait")).count k
        = (st (C ++ ":wait")).count k := by
      have h := send_wait_go_count C (C ++ ":wait")
        (st (C ++ ":wait")).reverse st [] k
      simp only [prefixC_of_prefixColon hpref, eq_self_iff_true, if_true,
        Nat.sub_zero] at h
      exact h
    rw [e1, e2, e3]
    exact ih k hpref hkw
  | ack st mid hmw hg hrec ih =>
    intro k hpref hkw
    have hkeyw : C ++ ":" ++ mid ≠ C ++ ":wait" := key_ne_wait hmw
    obtain ⟨hs1, hs2, hs3⟩ := pop_delivered_state C mid st hkeyw
    have hCk : C ≠ C ++ ":" ++ mid :=
      Ne.symm (prefixColon_ne_channel (key_prefixColon C mid))
    have hCwq : C ≠ C ++ ":wait" := Ne.symm (wait_ne_channel C)
    have eC : (pop_delivered C mid st).1 C = st C := hs3 C hCk hCwq
    by_cases hk : k = C ++ ":" ++ mid
    · subst hk
      rw [eC, hs1, hs2, List.length_drop, List.count_erase_self]
      have hIH := ih _ hpref hkw
      rcases hg with hg | hg
      · have hpos : 0 < (st (C ++ ":wait")).count (C ++ ":" ++ mid) :=
          List.count_pos_iff.mpr hg
        omega
      · have hlen : (st (C ++ ":" ++ mid)).length = 0 := by rw [hg]; rfl
        omega
    · rw [hs3 k hk hkw, eC, hs2, List.count_erase_of_ne hk]
      exact ih k hpref hkw

/-- C3 counterexample: on channel "u", starting from the empty store, a
single reliable put_message of the dict \x7b"id": "x", "type": 1\x7d reaches a
state where the record list at key "u:x" is non-empty (it holds the frame
and the from_channel) while "u:x" is not yet in "u:wait" - the key sits in
the incoming list "u" until the listener transfers it, so membership in
C:wait is not equivalent to non-emptiness of C:M. -/
theorem C3_counterexample :
    Reach "u" (put_message_rel ["u"]
      (.dict [("id", .str "x"), ("type", .num 1)]) none (fun _ => [])) ∧
    (put_message_rel ["u"] (.dict [("id", .str "x"), ("type", .num 1)])
      none (fun _ => [])) "u:x" ≠ [] ∧
    "u:x" ∉ (put_message_rel ["u"] (.dict [("id", .str "x"), ("type", .num 1)])
      none (fun _ => [])) "u:wait" := by
  refine ⟨?_, ?_, ?_⟩
  · refine Reach.put (fun _ => []) [("id", .str "x"), ("type", .num 1)] none
      ?_ Reach.init
    intro idv h
    rw [show getField [("id", JValue.str "x"), ("type", JValue.num 1)] "id"
        = some (JValue.str "x") from rfl] at h
    injection h with h2
    subst h2
    decide
  · decide
  · decide

/-- C3 (amended): over states reachable by interleaving put_message, the
listener transfer, the wait-queue drain and pop_delivered on a channel C
(no brace-opening, non-empty name, acks restricted to in-flight or drained
ids), a message key k = C:M satisfies 2 * (count of k in C + count of k in
C:wait) = llen(k): so llen(C:M) is non-zero iff the key is pending in the
incoming list C or in-flight in C:wait (not C:wait alone, as the key rests
in C between put_message and the listener transfer), and when k sits
exactly once in C:wait and is no longer in C, llen(C:M) = 2. -/
theorem C3_inflight_invariant (C : String) (hCne : C ≠ "")
    (hCb : ∀ c0 cs, C.data = c0 :: cs → c0 ≠ braceO)
    (st : RState) (h : Reach C st) (k : String)
    (hpref : pyStartsWith k (C ++ ":") = true) (hkw : k ≠ C ++ ":wait") :
    2 * ((st C).count k + (st (C ++ ":wait")).count k) = (st k).length ∧
    (st k ≠ [] ↔ (k ∈ st C ∨ k ∈ st (C ++ ":wait"))) ∧
    (k ∈ st (C ++ ":wait") → k ∉ st C → (st (C ++ ":wait")).count k = 1 →
      (st k).length = 2) := by
  have he := reach_count_inv C hCne hCb st h k hpref hkw
  refine ⟨he, ⟨?_, ?_⟩, ?_⟩
  · intro hne
    have hlen : 0 < (st k).length := List.length_pos.mpr hne
    by_cases hc : k ∈ st C
    · exact Or.inl hc
    by_cases hw : k ∈ st (C ++ ":wait")
    · exact Or.inr hw
    exfalso
    have h1 : (st C).count k = 0 := List.count_eq_zero.mpr hc
    have h2 : (st (C ++ ":wait")).count k = 0 := List.count_eq_zero.mpr hw
    omega
  · intro hor
    have hlen : 0 < (st k).length := by
      rcases hor with hm | hm
      · have := List.count_pos_iff.mpr hm
        omega
      · have := List.count_pos_iff.mpr hm
        omega
    exact List.length_pos.mp hlen
  · intro _ hc h1
    have h0 : (st C).count k = 0 := List.count_eq_zero.mpr hc
    omega

/-- Witness for C3: on channel "u" after one put_message of the dict with
id "x", the count equation evaluates concretely - the key "u:x" appears
once in list "u", zero times in "u:wait", and llen("u:x") = 2. -/
theorem C3_inflight_invariant_witness :
    2 * (((put_message_rel ["u"] (.dict [("id", .str "x"), ("type", .num 1)])
          none (fun _ => [])) "u").count "u:x"
        + ((put_message_rel ["u"] (.dict [("id", .str "x"), ("type", .num 1)])
          none (fun _ => [])) "u:wait").count "u:x")
      = ((put_message_rel ["u"] (.dict [("id", .str "x"), ("type", .num 1)])
          none (fun _ => [])) "u:x").length :=
  (C3_inflight_invariant "u" (by decide)
    (by
      intro c0 cs h
      rw [show ("u").data = ['u'] from rfl] at h
      injection h with h1 _
      subst h1
      decide)
    _
    (Reach.put (fun _ => []) [("id", .str "x"), ("type", .num 1)] none
      (by
        intro idv h
        rw [show getField [("id", JValue.str "x"), ("type", JValue.num 1)] "id"
            = some (JValue.str "x") from rfl] at h
        injection h with h2
        subst h2
        decide)
      Reach.init)
    "u:x" (by decide) (by decide)).1

end Bachata

